import Mathlib

/-!
Verification development for the piledbox LED render pipeline.

The definitions below are a shallow embedding of the Python sources:
`fixture_definitions.py`, `fixture_manager.py`, `gpio_process.py`,
`sacn_manager.py`, `universedata.py`, `misc.py` and `config_models.py`.
Python dicts are embedded as association lists that keep insertion order
(the iteration order of a Python dict); machine integers are `Nat`/`Int`
(no overflow is possible at the value ranges involved); code that raises
is embedded with `Option`/`Except`; timestamps are microsecond counts.
-/

namespace Piledbox

/-! ## Generic association-list helpers (embedding of Python `dict`) -/

/-- Lookup in an insertion-ordered association list (`d[k]` / `k in d.keys()`). -/
def alookup {κ ν : Type} [DecidableEq κ] : List (κ × ν) → κ → Option ν
  | [], _ => none
  | (a, b) :: t, k => if a = k then some b else alookup t k

/-- `d[k] = v` on a Python dict: replace the value if the key exists,
otherwise append the new key at the end (insertion order). -/
def alistSet {κ ν : Type} [DecidableEq κ] (l : List (κ × ν)) (k : κ) (v : ν) :
    List (κ × ν) :=
  if (alookup l k).isSome then
    l.map (fun e => if e.1 = k then (e.1, v) else e)
  else
    l ++ [(k, v)]

/-! ## `misc.py` -/

/-- `WORKER_LED_REFRESH_RATE`: rate at which the GPIO worker refreshes the
outputs, in Hz. -/
def WORKER_LED_REFRESH_RATE : Nat := 40

/-! ## `fixture_definitions.py`: the fixture catalog -/

/-- `SACN_UNI_MAX`: max accepted sACN universe id. -/
def SACN_UNI_MAX : Nat := 63999

/-- `DMX_UNI_SIZE`: channel count of a standard DMX universe. -/
def DMX_UNI_SIZE : Nat := 512

/-- `FixtureChannelName`: standardized fixture channel labels. -/
inductive FixtureChannelName where
  | red
  | green
  | blue
  | white
deriving DecidableEq

/-- `ChannelDepth`: depth of a single DMX channel, value expressed as byte
count (`D8 = 1`, `D16 = 2`). -/
inductive ChannelDepth where
  | D8
  | D16
deriving DecidableEq

/-- `ChannelDepth.byteCount`. -/
def ChannelDepth.byteCount : ChannelDepth → Nat
  | .D8 => 1
  | .D16 => 2

/-- `FixtureChannel`: a standard channel function in a DMX fixture
(the description and default-value tuple fields carry no behaviour and are
omitted). -/
structure FixtureChannel where
  label : FixtureChannelName
  depth : ChannelDepth
deriving DecidableEq

def FixtureChannel.R8 : FixtureChannel := ⟨.red, .D8⟩
def FixtureChannel.G8 : FixtureChannel := ⟨.green, .D8⟩
def FixtureChannel.B8 : FixtureChannel := ⟨.blue, .D8⟩
def FixtureChannel.W8 : FixtureChannel := ⟨.white, .D8⟩
def FixtureChannel.R16 : FixtureChannel := ⟨.red, .D16⟩
def FixtureChannel.G16 : FixtureChannel := ⟨.green, .D16⟩
def FixtureChannel.B16 : FixtureChannel := ⟨.blue, .D16⟩
def FixtureChannel.W16 : FixtureChannel := ⟨.white, .D16⟩

/-- `Fixture`: a generic LED fixture/pixel made of a number of channels. -/
inductive Fixture where
  | PX_RGB_8
  | PX_RGB_16
  | PX_RGBW_8
  | PX_RGBW_16
deriving DecidableEq

/-- `Fixture.label`: unique fixture label string. -/
def Fixture.label : Fixture → String
  | .PX_RGB_8 => "rgb8"
  | .PX_RGB_16 => "rgb16"
  | .PX_RGBW_8 => "rgbw8"
  | .PX_RGBW_16 => "rgbw16"

/-- `Fixture.channels`: ordered tuple of fixture channels. -/
def Fixture.channels : Fixture → List FixtureChannel
  | .PX_RGB_8 => [.R8, .G8, .B8]
  | .PX_RGB_16 => [.R16, .G16, .B16]
  | .PX_RGBW_8 => [.R8, .G8, .B8, .W8]
  | .PX_RGBW_16 => [.R16, .G16, .B16, .W16]

/-- `Fixture.channel_count`: how many channels are in the fixture. -/
def Fixture.channel_count (f : Fixture) : Nat := f.channels.length

/-- Helper for `Fixture.channels_offset`: running byte offsets of a channel
list, starting at `cur`. -/
def channelOffsets (cur : Nat) : List FixtureChannel → List Nat
  | [] => []
  | ch :: t => cur :: channelOffsets (cur + ch.depth.byteCount) t

/-- `Fixture.channels_offset`: DMX address offset for each channel. -/
def Fixture.channels_offset (f : Fixture) : List Nat :=
  channelOffsets 0 f.channels

/-- `Fixture.profile_size`: how many 8-bit DMX channels the fixture uses. -/
def Fixture.profile_size (f : Fixture) : Nat :=
  (f.channels.map (fun ch => ch.depth.byteCount)).sum

/-- `Fixture.from_string`: the fixture whose label matches the argument;
the Python raises `ValueError` when no label matches, embedded as `none`. -/
def Fixture.from_string (value : String) : Option Fixture :=
  [Fixture.PX_RGB_8, .PX_RGB_16, .PX_RGBW_8, .PX_RGBW_16].find?
    (fun item => item.label = value)

example : Fixture.PX_RGB_8.profile_size = 3 := by decide
example : Fixture.PX_RGB_8.channels_offset = [0, 1, 2] := by decide
example : Fixture.PX_RGBW_16.channels_offset = [0, 2, 4, 6] := by decide
example : Fixture.from_string "rgb8" = some .PX_RGB_8 := by decide

/-! ## `gpio_process.py`: the `Pixel` value class -/

/-- `Pixel`: value of a pixel. The worker only ever instantiates
`Pixel(bitDepth=8)` (the catch-all branch), so the bit-depth rescaling
machinery is never exercised and the embedding keeps the four channel
values. -/
structure Pixel where
  red : Nat
  green : Nat
  blue : Nat
  white : Nat
deriving DecidableEq

/-- One step of the `for char in order` loop of `Pixel.asTuple`:
`none` embeds the `case _` fallback for an unknown channel character. -/
def Pixel.channelValue (p : Pixel) : Char → Option Nat
  | 'R' => some p.red
  | 'G' => some p.green
  | 'B' => some p.blue
  | 'W' => some p.white
  | _ => none

/-- The character loop of `Pixel.asTuple` over the order string. -/
def Pixel.asTupleChars (p : Pixel) : List Char → Option (List Nat)
  | [] => some []
  | c :: t =>
    match p.channelValue c, p.asTupleChars t with
    | some v, some r => some (v :: r)
    | _, _ => none

/-- `Pixel.asTuple`: channel values as an ordered tuple; an order string of
bad length or with an unknown character falls back to
`asTuple("RGB") = [red, green, blue]`. -/
def Pixel.asTuple (p : Pixel) (order : String) : List Nat :=
  if 3 ≤ order.length ∧ order.length ≤ 4 then
    match p.asTupleChars order.toList with
    | some r => r
    | none => [p.red, p.green, p.blue]
  else
    [p.red, p.green, p.blue]

example : (Pixel.mk 1 2 3 4).asTuple "RGB" = [1, 2, 3] := by decide
example : (Pixel.mk 1 2 3 4).asTuple "GRBW" = [2, 1, 3, 4] := by decide
example : (Pixel.mk 1 2 3 4).asTuple "XYZ" = [1, 2, 3] := by decide
example : (Pixel.mk 1 2 3 4).asTuple "RG" = [1, 2, 3] := by decide

/-! ## `gpio_rpi.py` / `config_models.py`: pins, strips and configuration -/

/-- `GPIO`: a physical pin id (the Python enum `gpio1 .. gpio27`). The
claims only use pins as dictionary keys, so the id number is kept. -/
abbrev Gpio := Nat

/-- `LedStrip`: single LED strip declaration from the configuration. -/
structure LedStrip where
  label : String
  pixel_count : Nat
  universe_id : Nat
  start_channel : Nat
deriving DecidableEq

/-- `PinConfig`: configuration of a single GPIO output. -/
structure PinConfig where
  gpio : Gpio
  pixel_type : String
  strips : List LedStrip
deriving DecidableEq

/-- `FullConfig.outputs`: the output-label → `PinConfig` dict, in
declaration order (the other `FullConfig` fields do not reach the fixture
manager). -/
structure FullConfig where
  outputs : List (String × PinConfig)
deriving DecidableEq

/-- The pydantic `field_validator` on `PinConfig.pixel_type` guarantees the
string names a catalog fixture, so `Fixture.from_string` cannot raise on a
loaded configuration; theorems carry this as a hypothesis. -/
def validPixelTypes (cfg : FullConfig) : Prop :=
  ∀ oc ∈ cfg.outputs, (Fixture.from_string oc.2.pixel_type).isSome

instance (cfg : FullConfig) : Decidable (validPixelTypes cfg) := by
  unfold validPixelTypes; infer_instance

/-- `Fixture.from_string(...)` as used where the config is known valid;
defaults are irrelevant under `validPixelTypes`. -/
def fixtureOf (s : String) : Fixture :=
  (Fixture.from_string s).getD .PX_RGB_8

/-- `Fixture.from_string(...).profile_size` as evaluated by the validator. -/
def profileSizeOf (s : String) : Nat := (fixtureOf s).profile_size

/-! ## `fixture_definitions.py`: `FixturePatch` -/

/-- `FixturePatch`: a single patched LED strip. -/
structure FixturePatch where
  label : String
  pixel_type : Fixture
  pixel_count : Nat
  universe_id : Nat
  start_channel : Nat
  output : Gpio
  pos_in_out_queue : Nat
deriving DecidableEq

/-- `FixturePatch.end_channel`: end channel from start channel, pixel count
and pixel-type profile size. -/
def FixturePatch.end_channel (p : FixturePatch) : Nat :=
  p.start_channel + p.pixel_count * p.pixel_type.profile_size - 1

/-! ## `fixture_manager.py`: validation -/

/-- One appended line of `_validate_cfg`'s log message; each constructor
corresponds one-to-one to a `logmessage +=` in the source. -/
inductive Violation where
  | pinReuse (out : String) (gpio : Gpio)
  | labelReuse (out : String) (label : String)
  | oversize (out : String) (label : String)
deriving DecidableEq

/-- Body of the `for strip in declared_strips` loop of `_validate_cfg`:
state is (declared_labels, collected messages). -/
def validateStrip (out : String) (ptype : String)
    (st : List String × List Violation) (strip : LedStrip) :
    List String × List Violation :=
  let st1 :=
    if strip.label ∈ st.1 then (st.1, st.2 ++ [.labelReuse out strip.label])
    else (st.1 ++ [strip.label], st.2)
  let end_channel := strip.start_channel - 1 + strip.pixel_count * profileSizeOf ptype
  if end_channel > DMX_UNI_SIZE then (st1.1, st1.2 ++ [.oversize out strip.label])
  else st1

/-- Body of the `for out in declared_outputs` loop of `_validate_cfg`:
state is (declared_gpio, declared_labels, collected messages). -/
def validateOutput (st : List Gpio × List String × List Violation)
    (oc : String × PinConfig) : List Gpio × List String × List Violation :=
  let st1 :=
    if oc.2.gpio ∈ st.1 then (st.1, st.2.1, st.2.2 ++ [.pinReuse oc.1 oc.2.gpio])
    else (st.1 ++ [oc.2.gpio], st.2.1, st.2.2)
  let inner := oc.2.strips.foldl (validateStrip oc.1 oc.2.pixel_type) (st1.2.1, st1.2.2)
  (st1.1, inner.1, inner.2)

/-- `FixtureManager._validate_cfg`: the collected violation messages; the
Python raises `ValueError(logmessage)` exactly when this list is nonempty
(`tmp_valid` is set to `False` exactly when a message is appended). -/
def validateCfg (cfg : FullConfig) : List Violation :=
  (cfg.outputs.foldl validateOutput ([], [], [])).2.2

/-! ## `fixture_manager.py`: patching -/

/-- The `FixturePatch(...)` constructed by `_patch_fixtures` for strip
`s` of output `oc` at queue position `pos`. -/
def mkPatch (oc : String × PinConfig) (s : LedStrip) (pos : Nat) : FixturePatch :=
  { label := s.label
    pixel_type := fixtureOf oc.2.pixel_type
    pixel_count := s.pixel_count
    universe_id := s.universe_id
    start_channel := s.start_channel
    output := oc.2.gpio
    pos_in_out_queue := pos }

/-- The by-output index (`_by_out`): gpio pin → patches in queue order. -/
abbrev ByOut := List (Gpio × List FixturePatch)

/-- The by-universe index (`_by_uni`): universe id → patches. -/
abbrev ByUni := List (Nat × List FixturePatch)

/-- Append a patch to the by-output bucket of its pin (`.append` on
`self._by_out[gpio]`, whose key was just created). -/
def appendOut (bo : ByOut) (g : Gpio) (p : FixturePatch) : ByOut :=
  bo.map (fun e => if e.1 = g then (e.1, e.2 ++ [p]) else e)

/-- `if not strip.universe_id in self._by_uni.keys(): self._by_uni[u] = []`
followed by `self._by_uni[u].append(new_patch)`. -/
def addToBuckets (bu : ByUni) (p : FixturePatch) : ByUni :=
  if (alookup bu p.universe_id).isSome then
    bu.map (fun e => if e.1 = p.universe_id then (e.1, e.2 ++ [p]) else e)
  else
    bu ++ [(p.universe_id, [p])]

/-- The `for strip in declared_strips` loop of `_patch_fixtures`:
`pos` is the running `strip_queue_pos`. -/
def buildStrips (oc : String × PinConfig) (bo : ByOut) (bu : ByUni) (pos : Nat) :
    List LedStrip → ByOut × ByUni
  | [] => (bo, bu)
  | s :: rest =>
    let p := mkPatch oc s pos
    buildStrips oc (appendOut bo oc.2.gpio p) (addToBuckets bu p) (pos + 1) rest

/-- The `for out in declared_outputs` loop of `_patch_fixtures`: first
`self._by_out[gpio] = []`, then the strips of the output. -/
def buildOutputs (st : ByOut × ByUni) : List (String × PinConfig) → ByOut × ByUni
  | [] => st
  | oc :: rest =>
    buildOutputs (buildStrips oc (alistSet st.1 oc.2.gpio []) st.2 0 oc.2.strips) rest

/-! ## `fixture_manager.py`: the bubble sort on `_by_uni` buckets -/

/-- One comparison/swap of the source's bubble sort: compares positions
`i` and `i+1` and swaps them when `[i].start_channel > [i+1].start_channel`. -/
def swapIfGt (l : List FixturePatch) (i : Nat) : List FixturePatch :=
  match l[i]?, l[i + 1]? with
  | some a, some b =>
    if b.start_channel < a.start_channel then (l.set i b).set (i + 1) a else l
  | _, _ => l

/-- The inner `for i in range(len - 1)` pass of the bubble sort. -/
def bubblePass (l : List FixturePatch) : List FixturePatch :=
  (List.range (l.length - 1)).foldl swapIfGt l

/-- The outer `for k in range(len - 1)` loop of the bubble sort
(swaps preserve the length, so the recomputed inner range is constant). -/
def bubbleSortCode (l : List FixturePatch) : List FixturePatch :=
  (List.range (l.length - 1)).foldl (fun acc _ => bubblePass acc) l

/-- `_patch_fixtures` after the build loops: sort every `_by_uni` bucket. -/
def sortBuckets (bu : ByUni) : ByUni :=
  bu.map (fun e => (e.1, bubbleSortCode e.2))

/-- `FixtureManager._patch_fixtures` (as run by `__init__` on the empty
indexes): validate, and only on success build the two indexes; the raised
`ValueError` is the `.error` case, in which no patch object is built and
both indexes stay empty. -/
def patchFixtures (cfg : FullConfig) : Except (List Violation) (ByOut × ByUni) :=
  let errs := validateCfg cfg
  if errs = [] then
    let built := buildOutputs ([], []) cfg.outputs
    .ok (built.1, sortBuckets built.2)
  else
    .error errs

/-- `FixtureManager.get_fixtures_by_uni`: the bucket of that universe,
or an empty list when the universe has no patched fixture. -/
def getFixturesByUni (bu : ByUni) (u : Nat) : List FixturePatch :=
  match alookup bu u with
  | some l => l
  | none => []

/-- The `FixturePatch` objects of one output's strips from queue position
`pos` on, in declaration order (the positions `_patch_fixtures` assigns
through its running `strip_queue_pos`). -/
def stripsPatches (oc : String × PinConfig) (pos : Nat) :
    List LedStrip → List FixturePatch
  | [] => []
  | s :: rest => mkPatch oc s pos :: stripsPatches oc (pos + 1) rest

/-- All patches in declaration order (outputs in declaration order, strips
in queue order). -/
def flattenPatches (cfg : FullConfig) : List FixturePatch :=
  (cfg.outputs.map (fun oc => stripsPatches oc 0 oc.2.strips)).flatten

/-! ## `universedata.py` -/

/-- `UniverseData`: info about a DMX universe as shared with the worker. -/
structure UniverseData where
  universe_id : Nat
  priority : Nat
  sourceName : String
  dmxData : List Nat
  latestTimeStamp : String
deriving DecidableEq

/-! ## `gpio_rpi.py`: the hardware pixel buffer -/

/-- `Pi5PixelBuffer`: fixed-size pixel buffer with a configured channel
byte order; a pixel is the channel tuple written by indexed assignment. -/
structure PixelBuf where
  byteorder : String
  pixels : List (List Nat)
deriving DecidableEq

/-- `PixelBuf.fill`: set every pixel of the buffer to the same value. -/
def PixelBuf.fill (b : PixelBuf) (v : List Nat) : PixelBuf :=
  { b with pixels := List.replicate b.pixels.length v }

/-- The worker's hardware pixel-buffer map (`pixelBuffers`). -/
abbrev Buffers := List (Gpio × PixelBuf)

/-- The deserialized snapshot batch of one loop iteration (`sacnData`). -/
abbrev SacnData := List (Nat × UniverseData)

/-! ## `gpio_process.py`: one iteration of the worker's main loop -/

/-- The `for pxch in range(patch_ch_count)` loop: assemble one pixel from
the snapshot bytes. The channel-depth match is the source's catch-all
(8-bit) branch; the address is
`start_channel + px * profile_size + channels_offset[pxch]`, and the byte
is read at `dmxAddr - 1`. `List.getD _ 0` stands for in-range Python
indexing — every claim below reads in range, where the default is inert. -/
def renderPixel (pxt : Fixture) (start : Nat) (dmx : List Nat) (px : Nat) : Pixel :=
  (List.range pxt.channel_count).foldl
    (fun tpx pxch =>
      let dmxAddr := start + px * pxt.profile_size + pxt.channels_offset.getD pxch 0
      let v := dmx.getD (dmxAddr - 1) 0
      match (pxt.channels.getD pxch FixtureChannel.R8).label with
      | .red => { tpx with red := v }
      | .green => { tpx with green := v }
      | .blue => { tpx with blue := v }
      | .white => { tpx with white := v })
    ⟨0, 0, 0, 0⟩

/-- The `for px in range(fixturePatch.pixel_count)` loop: write each pixel
of the strip at the running `offsetInQueue`, reordered to the buffer's
byte order, and advance the offset by one per written pixel. -/
def renderStrip (pxt : Fixture) (fp : FixturePatch) (dmx : List Nat)
    (buf : PixelBuf) (offset : Nat) : PixelBuf × Nat :=
  (List.range fp.pixel_count).foldl
    (fun st px =>
      let tpx := renderPixel pxt fp.start_channel dmx px
      ({ st.1 with pixels := st.1.pixels.set st.2 (tpx.asTuple st.1.byteorder) },
       st.2 + 1))
    (buf, offset)

/-- The `for fixturePatch in patchedFixtures[gpioPin]` loop. State:
(buffer, `offsetInQueue`, `patch_px_type`); the pixel-type variables are
taken from the first patch of the line and reused for every later patch.
A patch is skipped (`continue`) when the line's type is not `PX_RGB_8` or
when its universe has no snapshot in the batch; a skip does not advance
`offsetInQueue`. -/
def renderLine (fixtures : List FixturePatch) (buf : PixelBuf)
    (sacn : SacnData) : PixelBuf :=
  (fixtures.foldl
    (fun st fp =>
      let pxt := st.2.2.getD fp.pixel_type
      if pxt ≠ Fixture.PX_RGB_8 then (st.1, st.2.1, some pxt)
      else
        match alookup sacn fp.universe_id with
        | none => (st.1, st.2.1, some pxt)
        | some ud =>
          let r := renderStrip pxt fp ud.dmxData st.1 st.2.1
          (r.1, r.2, some pxt))
    (buf, 0, none)).1

/-- `list(set(pixelBuffers.keys()).difference(patchedFixtures.keys()))`:
the output lines present in the hardware buffers but absent from the patch
table. -/
def mismatchPins (patched : List (Gpio × List FixturePatch)) (bufs : Buffers) :
    List Gpio :=
  (bufs.map Prod.fst).filter (fun g => decide (g ∉ patched.map Prod.fst))

/-- Result of one iteration of the worker's main loop. -/
inductive RenderResult where
  /-- The corner-case `return`: the mismatch was logged and the function
  returned with the buffers in the carried state (no write, no transmit). -/
  | mismatch (bufs : Buffers)
  /-- The iteration rendered and transmitted; the carried buffers are the
  transmitted final state. -/
  | rendered (bufs : Buffers)
deriving DecidableEq

/-- The `for gpioPin in patchedFixtures.keys()` loop. A patched pin with
no hardware buffer is left unmodified here; on such a pin the Python would
raise `KeyError` at the first pixel write, a path no claim exercises. -/
def renderAllLines (patched : List (Gpio × List FixturePatch)) (bufs : Buffers)
    (sacn : SacnData) : Buffers :=
  patched.foldl
    (fun bs e =>
      match alookup bs e.1 with
      | some buf => alistSet bs e.1 (renderLine e.2 buf sacn)
      | none => bs)
    bufs

/-- One iteration of the worker's main loop after deserialization: the
consistency check, then per-line rendering and the per-output transmit. -/
def renderIteration (patched : List (Gpio × List FixturePatch)) (bufs : Buffers)
    (sacn : SacnData) : RenderResult :=
  if mismatchPins patched bufs ≠ [] then .mismatch bufs
  else .rendered (renderAllLines patched bufs sacn)

/-! ## `gpio_process.py`: blackout and shutdown paths -/

/-- `blackoutAll`: fill every configured output's buffer with `[0, 0, 0]`
(and transmit it). -/
def blackoutAll (bufs : Buffers) : Buffers :=
  bufs.map (fun e => (e.1, e.2.fill [0, 0, 0]))

/-- Observable side effects of the worker's shutdown paths, in order. -/
inductive WAction where
  /-- `sacnShareQueue.close()` -/
  | closeQueue
  /-- `pixelBuffers[pin].fill([0,0,0])` -/
  | fillZero (pin : Gpio)
  /-- `pixelBuffers[pin].show()` with the frame it transmits -/
  | transmit (pin : Gpio) (frame : List (List Nat))
  /-- `sys.exit(0)` / function return -/
  | exitWorker
deriving DecidableEq

/-- The effect trace of `blackoutAll`: per configured output, a fill with
zeros followed by the transmit of the all-zero frame. -/
def blackoutTrace (bufs : Buffers) : List WAction :=
  (bufs.map (fun e =>
    [WAction.fillZero e.1, WAction.transmit e.1 ((e.2.fill [0, 0, 0]).pixels)])).flatten

/-- The effect trace of `sigterm_handler`: close the channel, black out
every output, exit. -/
def sigtermTrace (bufs : Buffers) : List WAction :=
  WAction.closeQueue :: blackoutTrace bufs ++ [WAction.exitWorker]

/-- The effect trace of the `except` branch when `initGpioLogger()` fails
at startup: black out every output, exit — before any frame is rendered. -/
def loggerInitFailTrace (bufs : Buffers) : List WAction :=
  blackoutTrace bufs ++ [WAction.exitWorker]

/-! ## `sacn_manager.py` -/

/-- `sACNmanager._queueSize`: size of the cross-process channel. -/
def queueSize : Nat := 50

/-- `sACNmanager._queueRefreshDelta` in microseconds:
`10^6 / WORKER_LED_REFRESH_RATE` (exact at 40 Hz). -/
def queueRefreshDeltaUs : Nat := 1000000 / WORKER_LED_REFRESH_RATE

/-- `_queueRefreshDelta * 0.9` in microseconds. At 25000 µs this equals
22500 µs; Python's float product rounds to the same microsecond count. -/
def throttleThresholdUs : Nat := queueRefreshDeltaUs * 9 / 10

/-- `sacn.DataPacket` (the fields the manager reads). -/
structure DataPacket where
  dmxStartCode : Nat
  universe_id : Nat
  priority : Nat
  sourceName : String
  dmxData : List Nat
deriving DecidableEq

/-- `sACNmanager` state touched by packet handling: `_db` maps a universe
id to its `TimedDataPacket` (packet, arrival timestamp in µs), and
`lastQueueUpdateTs` maps it to the time of its last channel push. -/
structure SacnState where
  db : List (Nat × (DataPacket × Int))
  lastQueueUpdateTs : List (Nat × Int)
deriving DecidableEq

/-- `sACNmanager.getUniverseData`: latest data captured for a universe;
the Python raises `IndexError` when there is no record, embedded as
`.error` with the exception's message. -/
def getUniverseData (st : SacnState) (u : Nat) : Except String UniverseData :=
  match alookup st.db u with
  | some e =>
    .ok { universe_id := e.1.universe_id
          priority := e.1.priority
          sourceName := e.1.sourceName
          dmxData := e.1.dmxData
          latestTimeStamp := toString e.2 }
  | none => .error "IndexError: no existing record for universe"

/-- `sACNmanager.getAllUniverseDataDict`: latest data for all captured
universes (the per-universe `toDict` serialization is field-faithful). -/
def getAllUniverseData (db : List (Nat × (DataPacket × Int))) :
    List (Nat × UniverseData) :=
  db.map (fun e =>
    (e.1,
     { universe_id := e.2.1.universe_id
       priority := e.2.1.priority
       sourceName := e.2.1.sourceName
       dmxData := e.2.1.dmxData
       latestTimeStamp := toString e.2.2 }))

/-- `sACNmanager._onPacketReceived` at arrival time `now` (µs): non-data
packets are discarded; the snapshot is replaced; then the throttle decides
whether the full current snapshot map is pushed to the channel. The pushed
payload (argument of `_updateQueue`'s enqueue) is returned as `some _`. -/
def onPacketReceived (st : SacnState) (packet : DataPacket) (now : Int) :
    SacnState × Option (List (Nat × UniverseData)) :=
  if packet.dmxStartCode ≠ 0 then (st, none)
  else
    let db1 := alistSet st.db packet.universe_id (packet, now)
    let shouldPush :=
      match alookup st.lastQueueUpdateTs packet.universe_id with
      | none => true
      | some ts => decide ((throttleThresholdUs : Int) ≤ now - ts)
    if shouldPush then
      ({ db := db1,
         lastQueueUpdateTs := alistSet st.lastQueueUpdateTs packet.universe_id now },
       some (getAllUniverseData db1))
    else
      ({ st with db := db1 }, none)

/-- Outcome of one `_updateQueue` call, matching its branches. -/
inductive PushOutcome where
  /-- not full: plain enqueue -/
  | enqueued
  /-- full: one stale entry dequeued, then the enqueue succeeded -/
  | evictThenEnqueued
  /-- full, and the eviction dequeue found the channel already empty:
  update dropped, overflow error logged -/
  | droppedEmpty
  /-- full even after the eviction dequeue: update dropped, overflow error
  logged -/
  | droppedFull
deriving DecidableEq

/-- `sACNmanager._updateQueue` on an open channel, as observed through its
queue interactions `full()` / `get(False)` / `full()` / `put(...)`. The
channel is a bounded FIFO shared with the consumer process; `k1` and `k2`
are the number of entries the consumer dequeues between the producer's
observation points (the only concurrent mutation — this manager is the
sole producer). Returns the channel state it leaves behind and the
branch taken. -/
def updateQueue {α : Type} (q : List α) (d : α) (k1 k2 : Nat) :
    List α × PushOutcome :=
  if q.length < queueSize then
    (q ++ [d], .enqueued)
  else
    match q.drop k1 with
    | [] => ([], .droppedEmpty)
    | _ :: t =>
      let q2 := t.drop k2
      if q2.length < queueSize then (q2 ++ [d], .evictThenEnqueued)
      else (q2, .droppedFull)

/-! ## Helper lemmas: the `_by_uni` bubble sort -/

/-- Strong induction on list length, used for the bubble-pass lemmas. -/
theorem length_ind {P : List FixturePatch → Prop}
    (H : ∀ l, (∀ l', l'.length < l.length → P l') → P l) : ∀ l, P l := by
  have key : ∀ n, ∀ l : List FixturePatch, l.length ≤ n → P l := by
    intro n
    induction n with
    | zero =>
      intro l hl
      exact H l (fun l' hl' => absurd (Nat.lt_of_lt_of_le hl' hl) (Nat.not_lt_zero _))
    | succ n ihn =>
      intro l hl
      exact H l (fun l' hl' => ihn l' (by omega))
  exact fun l => key l.length l (Nat.le_refl _)

/-- Recursive form of one left-to-right bubble pass (carrying the running
maximum); proved equal to the source's index-based `bubblePass` below. -/
def bpassF : List FixturePatch → List FixturePatch
  | [] => []
  | [a] => [a]
  | a :: b :: t =>
    if b.start_channel < a.start_channel then b :: bpassF (a :: t)
    else a :: bpassF (b :: t)
termination_by l => l.length

theorem swapIfGt_cons (x : FixturePatch) (l : List FixturePatch) (i : Nat) :
    swapIfGt (x :: l) (i + 1) = x :: swapIfGt l i := by
  unfold swapIfGt
  cases h1 : l[i]? with
  | none => simp [h1]
  | some a =>
    cases h2 : l[i + 1]? with
    | none => simp [h1, h2]
    | some b =>
      simp only [List.getElem?_cons_succ, h1, h2]
      split <;> simp [List.set_cons_succ]

theorem foldl_swapIfGt_succ (x : FixturePatch) (is : List Nat) :
    ∀ l : List FixturePatch,
      (is.map Nat.succ).foldl swapIfGt (x :: l) = x :: is.foldl swapIfGt l := by
  induction is with
  | nil => intro l; rfl
  | cons i t ih =>
    intro l
    simp only [List.map_cons, List.foldl_cons]
    rw [show i.succ = i + 1 from rfl, swapIfGt_cons, ih]

theorem bubblePass_eq_bpassF : ∀ l : List FixturePatch, bubblePass l = bpassF l := by
  apply length_ind
  intro l ih
  rcases l with - | ⟨a, l⟩
  · simp [bubblePass, bpassF]
  rcases l with - | ⟨b, t⟩
  · simp [bubblePass, bpassF]
  have hswap0 : swapIfGt (a :: b :: t) 0 =
      if b.start_channel < a.start_channel then b :: a :: t else a :: b :: t := by
    unfold swapIfGt
    simp only [List.getElem?_cons_zero, List.getElem?_cons_succ,
      List.getElem?_cons_zero]
    split <;> rfl
  have hrange : List.range ((a :: b :: t).length - 1)
      = 0 :: (List.range t.length).map Nat.succ := by
    simp [List.range_succ_eq_map]
  rw [bubblePass, hrange]
  simp only [List.foldl_cons, hswap0]
  by_cases hba : b.start_channel < a.start_channel
  · rw [if_pos hba, foldl_swapIfGt_succ]
    have h1 := ih (a :: t) (by simp)
    rw [bubblePass] at h1
    simp only [List.length_cons, Nat.add_sub_cancel] at h1
    rw [h1]
    simp [bpassF, hba]
  · rw [if_neg hba, foldl_swapIfGt_succ]
    have h1 := ih (b :: t) (by simp)
    rw [bubblePass] at h1
    simp only [List.length_cons, Nat.add_sub_cancel] at h1
    rw [h1]
    simp [bpassF, hba]

theorem bpassF_length : ∀ l : List FixturePatch, (bpassF l).length = l.length := by
  apply length_ind
  intro l ih
  rcases l with - | ⟨a, l⟩
  · simp [bpassF]
  rcases l with - | ⟨b, t⟩
  · simp [bpassF]
  by_cases hba : b.start_channel < a.start_channel
  · simp only [bpassF, if_pos hba, List.length_cons]
    rw [ih (a :: t) (by simp)]
    simp
  · simp only [bpassF, if_neg hba, List.length_cons]
    rw [ih (b :: t) (by simp)]
    simp

theorem bpassF_perm : ∀ l : List FixturePatch, (bpassF l).Perm l := by
  apply length_ind
  intro l ih
  rcases l with - | ⟨a, l⟩
  · simp [bpassF]
  rcases l with - | ⟨b, t⟩
  · simp [bpassF]
  by_cases hba : b.start_channel < a.start_channel
  · simp only [bpassF, if_pos hba]
    exact ((ih (a :: t) (by simp)).cons b).trans (List.Perm.swap a b t)
  · simp only [bpassF, if_neg hba]
    exact (ih (b :: t) (by simp)).cons a

theorem bpassF_filter (c : Nat) :
    ∀ l : List FixturePatch,
      (bpassF l).filter (fun p => decide (p.start_channel = c)) =
        l.filter (fun p => decide (p.start_channel = c)) := by
  apply length_ind
  intro l ih
  rcases l with - | ⟨a, l⟩
  · simp [bpassF]
  rcases l with - | ⟨b, t⟩
  · simp [bpassF]
  by_cases hba : b.start_channel < a.start_channel
  · simp only [bpassF, if_pos hba]
    have hrec := ih (a :: t) (by simp)
    by_cases hac : a.start_channel = c
    · have hbc : ¬ b.start_channel = c := by omega
      simp [List.filter_cons, hac, hbc, hrec]
    · by_cases hbc : b.start_channel = c
      · simp [List.filter_cons, hac, hbc, hrec]
      · simp [List.filter_cons, hac, hbc, hrec]
  · simp only [bpassF, if_neg hba]
    have hrec := ih (b :: t) (by simp)
    by_cases hac : a.start_channel = c
    · simp [List.filter_cons, hac, hrec]
    · simp [List.filter_cons, hac, hrec]

theorem bpassF_max : ∀ (a : FixturePatch) (l : List FixturePatch),
    ∃ l₁ m, bpassF (a :: l) = l₁ ++ [m] ∧
      ∀ x ∈ a :: l, x.start_channel ≤ m.start_channel := by
  intro a l
  induction l generalizing a with
  | nil => exact ⟨[], a, by simp [bpassF], by simp⟩
  | cons b t ih =>
    by_cases hba : b.start_channel < a.start_channel
    · obtain ⟨l₁, m, he, hm⟩ := ih a
      refine ⟨b :: l₁, m, ?_, ?_⟩
      · simp only [bpassF, if_pos hba, he]
        rfl
      · intro x hx
        rcases List.mem_cons.mp hx with rfl | hx
        · exact hm x (List.mem_cons_self _ _)
        rcases List.mem_cons.mp hx with rfl | hx
        · have := hm a (List.mem_cons_self _ _); omega
        · exact hm x (List.mem_cons_of_mem _ hx)
    · obtain ⟨l₁, m, he, hm⟩ := ih b
      refine ⟨a :: l₁, m, ?_, ?_⟩
      · simp only [bpassF, if_neg hba, he]
        rfl
      · intro x hx
        rcases List.mem_cons.mp hx with rfl | hx
        · have := hm b (List.mem_cons_self _ _); omega
        · exact hm x hx

theorem bpassF_append_max : ∀ (l : List FixturePatch) (m : FixturePatch),
    (∀ x ∈ l, x.start_channel ≤ m.start_channel) →
      bpassF (l ++ [m]) = bpassF l ++ [m] := by
  apply length_ind
  intro l ih
  rcases l with - | ⟨a, l⟩
  · intro m _; simp [bpassF]
  rcases l with - | ⟨b, t⟩
  · intro m hm
    have hnot : ¬ m.start_channel < a.start_channel := by
      have := hm a (by simp); omega
    simp [bpassF, hnot]
  intro m hm
  by_cases hba : b.start_channel < a.start_channel
  · have h1 : bpassF ((a :: t) ++ [m]) = bpassF (a :: t) ++ [m] :=
      ih (a :: t) (by simp) m
        (fun x hx => hm x (by
          rcases List.mem_cons.mp hx with rfl | hx
          · exact List.mem_cons_self _ _
          · exact List.mem_cons_of_mem _ (List.mem_cons_of_mem _ hx)))
    rw [List.cons_append] at h1
    simp only [List.cons_append, bpassF, if_pos hba]
    rw [h1]
  · have h1 : bpassF ((b :: t) ++ [m]) = bpassF (b :: t) ++ [m] :=
      ih (b :: t) (by simp) m
        (fun x hx => hm x (List.mem_cons_of_mem _ hx))
    rw [List.cons_append] at h1
    simp only [List.cons_append, bpassF, if_neg hba]
    rw [h1]

theorem bpassF_iterate_append_max :
    ∀ (k : Nat) (l : List FixturePatch) (m : FixturePatch),
      (∀ x ∈ l, x.start_channel ≤ m.start_channel) →
        bpassF^[k] (l ++ [m]) = bpassF^[k] l ++ [m] := by
  intro k
  induction k with
  | zero => intro l m _; rfl
  | succ k ih =>
    intro l m hm
    rw [Function.iterate_succ_apply, Function.iterate_succ_apply,
      bpassF_append_max l m hm]
    exact ih (bpassF l) m (fun x hx => hm x ((bpassF_perm l).mem_iff.mp hx))

theorem bpassF_iterate_perm (k : Nat) :
    ∀ l : List FixturePatch, (bpassF^[k] l).Perm l := by
  induction k with
  | zero => intro l; exact List.Perm.refl _
  | succ k ih =>
    intro l
    rw [Function.iterate_succ_apply]
    exact (ih (bpassF l)).trans (bpassF_perm l)

theorem bpassF_iterate_sorted : ∀ (k : Nat) (l : List FixturePatch),
    l.length ≤ k + 1 →
    List.Pairwise (fun a b => a.start_channel ≤ b.start_channel) (bpassF^[k] l) := by
  intro k
  induction k with
  | zero =>
    intro l hl
    rcases l with - | ⟨a, l⟩
    · simp
    rcases l with - | ⟨b, t⟩
    · simp
    · simp at hl
  | succ k ih =>
    intro l hl
    rcases l with - | ⟨a, t⟩
    · have h0 : bpassF ([] : List FixturePatch) = [] := by simp [bpassF]
      rw [Function.iterate_succ_apply, h0]
      rw [(bpassF_iterate_perm k ([] : List FixturePatch)).eq_nil]
      simp
    rw [Function.iterate_succ_apply]
    obtain ⟨l₁, m, he, hm⟩ := bpassF_max a t
    rw [he]
    have hlen1 : l₁.length = t.length := by
      have hlen := bpassF_length (a :: t)
      rw [he] at hlen
      simp at hlen
      omega
    have hperm : (l₁ ++ [m]).Perm (a :: t) := he ▸ bpassF_perm (a :: t)
    have hmem1 : ∀ x ∈ l₁, x.start_channel ≤ m.start_channel := by
      intro x hx
      exact hm x (hperm.mem_iff.mp (List.mem_append_left _ hx))
    rw [bpassF_iterate_append_max k l₁ m hmem1]
    rw [List.pairwise_append]
    refine ⟨ih l₁ (by simp at hl; omega), by simp, ?_⟩
    intro x hx y hy
    simp only [List.mem_singleton] at hy
    subst hy
    exact hmem1 x ((bpassF_iterate_perm k l₁).mem_iff.mp hx)

theorem bpassF_iterate_filter (c : Nat) (k : Nat) :
    ∀ l : List FixturePatch,
      (bpassF^[k] l).filter (fun p => decide (p.start_channel = c)) =
        l.filter (fun p => decide (p.start_channel = c)) := by
  induction k with
  | zero => intro l; rfl
  | succ k ih =>
    intro l
    rw [Function.iterate_succ_apply, ih (bpassF l), bpassF_filter]

theorem bubbleSortCode_eq_iterate (l : List FixturePatch) :
    bubbleSortCode l = bpassF^[l.length - 1] l := by
  have hfun : bubblePass = bpassF := funext bubblePass_eq_bpassF
  have hfold : ∀ (xs : List Nat) (m : List FixturePatch),
      xs.foldl (fun acc _ => bubblePass acc) m = bubblePass^[xs.length] m := by
    intro xs
    induction xs with
    | nil => intro m; rfl
    | cons x t ih =>
      intro m
      simp only [List.foldl_cons, List.length_cons, ih (bubblePass m)]
      rw [Function.iterate_succ_apply]
  rw [bubbleSortCode, hfold, List.length_range, hfun]

theorem bubbleSortCode_sorted (l : List FixturePatch) :
    List.Pairwise (fun a b => a.start_channel ≤ b.start_channel) (bubbleSortCode l) := by
  rw [bubbleSortCode_eq_iterate]
  exact bpassF_iterate_sorted (l.length - 1) l (by omega)

theorem bubbleSortCode_filter (l : List FixturePatch) (c : Nat) :
    (bubbleSortCode l).filter (fun p => decide (p.start_channel = c)) =
      l.filter (fun p => decide (p.start_channel = c)) := by
  rw [bubbleSortCode_eq_iterate]
  exact bpassF_iterate_filter c (l.length - 1) l

theorem bubbleSortCode_perm (l : List FixturePatch) : (bubbleSortCode l).Perm l := by
  rw [bubbleSortCode_eq_iterate]
  exact bpassF_iterate_perm (l.length - 1) l

/-! ## Helper lemmas: the strip-rendering fold -/

/-- `renderStrip` with the pixel count generalized, for induction. -/
def stripFoldN (pxt : Fixture) (sc : Nat) (dmx : List Nat) (buf : PixelBuf)
    (offset n : Nat) : PixelBuf × Nat :=
  (List.range n).foldl
    (fun st px =>
      ({ st.1 with pixels :=
          st.1.pixels.set st.2 ((renderPixel pxt sc dmx px).asTuple st.1.byteorder) },
       st.2 + 1))
    (buf, offset)

theorem renderStrip_eq_stripFoldN (pxt : Fixture) (fp : FixturePatch)
    (dmx : List Nat) (buf : PixelBuf) (offset : Nat) :
    renderStrip pxt fp dmx buf offset =
      stripFoldN pxt fp.start_channel dmx buf offset fp.pixel_count := rfl

theorem stripFoldN_spec (pxt : Fixture) (sc : Nat) (dmx : List Nat)
    (buf : PixelBuf) (offset : Nat) :
    ∀ n : Nat,
      (stripFoldN pxt sc dmx buf offset n).2 = offset + n ∧
      (stripFoldN pxt sc dmx buf offset n).1.byteorder = buf.byteorder ∧
      (stripFoldN pxt sc dmx buf offset n).1.pixels.length = buf.pixels.length ∧
      (∀ p, p < n →
        (stripFoldN pxt sc dmx buf offset n).1.pixels[offset + p]? =
          if offset + p < buf.pixels.length then
            some ((renderPixel pxt sc dmx p).asTuple buf.byteorder)
          else none) := by
  intro n
  induction n with
  | zero => exact ⟨rfl, rfl, rfl, fun p hp => absurd hp (Nat.not_lt_zero p)⟩
  | succ n ih =>
    obtain ⟨h1, h2, h3, h4⟩ := ih
    have hstep : stripFoldN pxt sc dmx buf offset (n + 1) =
        (⟨(stripFoldN pxt sc dmx buf offset n).1.byteorder,
          (stripFoldN pxt sc dmx buf offset n).1.pixels.set
            (stripFoldN pxt sc dmx buf offset n).2
            ((renderPixel pxt sc dmx n).asTuple
              (stripFoldN pxt sc dmx buf offset n).1.byteorder)⟩,
         (stripFoldN pxt sc dmx buf offset n).2 + 1) := by
      unfold stripFoldN
      rw [List.range_succ, List.foldl_append]
      rfl
    refine ⟨?_, ?_, ?_, ?_⟩
    · rw [hstep]; simp [h1, Nat.add_assoc]
    · rw [hstep]; exact h2
    · rw [hstep]; simp [List.length_set, h3]
    · intro p hp
      rw [hstep]
      rcases Nat.lt_succ_iff_lt_or_eq.mp hp with hlt | rfl
      · have hne : (stripFoldN pxt sc dmx buf offset n).2 ≠ offset + p := by
          rw [h1]; omega
        simp only [List.getElem?_set_ne hne]
        exact h4 p hlt
      · rw [h1, h2, List.getElem?_set, h3]
        simp

/-! ## Claim C3: per-pixel DMX addressing and byte-order remapping -/

/-- The strip of the claim's example: universe 5, start channel 1,
profile rgb8, patched on output 4. -/
def c3Strip : FixturePatch := ⟨"S", .PX_RGB_8, 1, 5, 1, 4, 0⟩

/-- Snapshot of universe 5 with DMX byte 1 = 255, byte 2 = 128, byte 3 = 0. -/
def c3Snapshot : UniverseData := ⟨5, 100, "src", [255, 128, 0], "t"⟩

/-- C3: for the example strip (universe 5, start channel 1, rgb8) and the
example snapshot, pixel 0 renders as `(255, 128, 0)` in RGB buffer order
and `(128, 255, 0)` in GRB buffer order; in general, channel `c` of pixel
`p` of an rgb8 strip is read from DMX address
`start_channel + p × 3 + offset_c` (byte index `addr − 1`) of the strip's
universe snapshot, and the assembled pixel is written to the hardware
buffer at the running offset plus `p`, reordered to the buffer's
configured byte order. -/
theorem pixelAddressing_spec :
    renderIteration [(4, [c3Strip])] [(4, ⟨"RGB", [[0, 0, 0]]⟩)] [(5, c3Snapshot)]
      = .rendered [(4, ⟨"RGB", [[255, 128, 0]]⟩)] ∧
    renderIteration [(4, [c3Strip])] [(4, ⟨"GRB", [[0, 0, 0]]⟩)] [(5, c3Snapshot)]
      = .rendered [(4, ⟨"GRB", [[128, 255, 0]]⟩)] ∧
    (∀ sc dmx p, renderPixel .PX_RGB_8 sc dmx p =
      ⟨dmx.getD (sc + p * 3 + 0 - 1) 0,
       dmx.getD (sc + p * 3 + 1 - 1) 0,
       dmx.getD (sc + p * 3 + 2 - 1) 0, 0⟩) ∧
    (∀ fp dmx buf offset p, p < fp.pixel_count →
      (renderStrip .PX_RGB_8 fp dmx buf offset).1.pixels[offset + p]? =
        if offset + p < buf.pixels.length then
          some ((renderPixel .PX_RGB_8 fp.start_channel dmx p).asTuple buf.byteorder)
        else none) := by
  refine ⟨rfl, rfl, fun sc dmx p => rfl, fun fp dmx buf offset p hp => ?_⟩
  rw [renderStrip_eq_stripFoldN]
  exact (stripFoldN_spec .PX_RGB_8 fp.start_channel dmx buf offset fp.pixel_count).2.2.2 p hp

/-- Witness for C3's general conjunct: the example strip's pixel 0 written
at offset 0 of a GRB buffer. -/
theorem pixelAddressing_spec_witness :
    (renderStrip .PX_RGB_8 c3Strip [255, 128, 0] ⟨"GRB", [[0, 0, 0]]⟩ 0).1.pixels[0 + 0]? =
      if 0 + 0 < (PixelBuf.mk "GRB" [[0, 0, 0]]).pixels.length then
        some ((renderPixel .PX_RGB_8 c3Strip.start_channel [255, 128, 0] 0).asTuple "GRB")
      else none :=
  pixelAddressing_spec.2.2.2 c3Strip [255, 128, 0] ⟨"GRB", [[0, 0, 0]]⟩ 0 0 (by decide)

/-! ## Claim C2: strip offsets when a universe snapshot is missing -/

/-- First strip of the line: 2 pixels sourced from universe 1 (which will
have no snapshot in the batch). -/
def c2LineA : FixturePatch := ⟨"A", .PX_RGB_8, 2, 1, 1, 5, 0⟩

/-- Second strip of the line: 1 pixel sourced from universe 2. -/
def c2LineB : FixturePatch := ⟨"B", .PX_RGB_8, 1, 2, 1, 5, 1⟩

/-- C2 divergence: with the first strip's universe missing from the batch,
the second strip's pixel is written at offset 0 — the position of the
skipped strip's first pixel — instead of keeping its queue offset 2: the
skip does not advance the running offset, so later strips shift and the
skipped strip's buffer region is overwritten. -/
theorem skippedStripShiftsOffsets :
    renderIteration [(5, [c2LineA, c2LineB])]
        [(5, ⟨"RGB", [[9, 9, 9], [9, 9, 9], [9, 9, 9]]⟩)]
        [(2, ⟨2, 100, "src", [7, 8, 9], "t"⟩)]
      = .rendered [(5, ⟨"RGB", [[7, 8, 9], [9, 9, 9], [9, 9, 9]]⟩)] := rfl

/-! ## Claim C1: the hardware-mismatch consistency check -/

/-- C1 counterexample: on a mismatch (output 3 has a hardware buffer but
no patch-table entry) the worker returns with the buffers exactly as they
were — the blackout frame claimed for every configured output is not
written (pixel `[5,5,5]` survives). -/
theorem mismatchNoBlackout_cex :
    renderIteration [] [(3, ⟨"RGB", [[5, 5, 5]]⟩)] []
      = .mismatch [(3, ⟨"RGB", [[5, 5, 5]]⟩)] ∧
    blackoutAll [(3, ⟨"RGB", [[5, 5, 5]]⟩)] ≠ [(3, ⟨"RGB", [[5, 5, 5]]⟩)] := by
  exact ⟨rfl, by decide⟩

/-- C1 (amended): if any output line present in the worker's hardware
pixel-buffer map is absent from the patch table, the worker logs the
mismatch and stops (returns from its loop) without rendering, leaving the
buffers untouched — it does not write a blackout frame; for every
consistent pair of maps the check passes and rendering proceeds. -/
theorem renderIteration_mismatch_spec (patched : List (Gpio × List FixturePatch))
    (bufs : Buffers) (sacn : SacnData) :
    ((∃ g ∈ bufs.map Prod.fst, g ∉ patched.map Prod.fst) →
      renderIteration patched bufs sacn = .mismatch bufs) ∧
    ((∀ g ∈ bufs.map Prod.fst, g ∈ patched.map Prod.fst) →
      renderIteration patched bufs sacn = .rendered (renderAllLines patched bufs sacn)) := by
  constructor
  · rintro ⟨g, hg, hnot⟩
    have hne : mismatchPins patched bufs ≠ [] := by
      intro hnil
      rw [mismatchPins, List.filter_eq_nil_iff] at hnil
      have hg2 := hnil g hg
      simp at hg2
      obtain ⟨x, hx⟩ := hg2
      exact hnot (List.mem_map.mpr ⟨(g, x), hx, rfl⟩)
    simp [renderIteration, hne]
  · intro hall
    have heq : mismatchPins patched bufs = [] := by
      rw [mismatchPins, List.filter_eq_nil_iff]
      intro a ha
      simpa using hall a ha
    simp [renderIteration, heq]

/-- Witness for C1's amended statement: a mismatching and a consistent
concrete pair of maps. -/
theorem renderIteration_mismatch_spec_witness :
    renderIteration [] [(3, ⟨"RGB", [[5, 5, 5]]⟩)] []
      = .mismatch [(3, ⟨"RGB", [[5, 5, 5]]⟩)] ∧
    renderIteration [(7, [])] [(7, ⟨"RGB", [[1, 2, 3]]⟩)] []
      = .rendered (renderAllLines [(7, [])] [(7, ⟨"RGB", [[1, 2, 3]]⟩)] []) :=
  ⟨(renderIteration_mismatch_spec [] [(3, ⟨"RGB", [[5, 5, 5]]⟩)] []).1
      ⟨3, by simp, by simp⟩,
   (renderIteration_mismatch_spec [(7, [])] [(7, ⟨"RGB", [[1, 2, 3]]⟩)] []).2
      (by simp)⟩

/-! ## Helper lemmas: the validation fold -/

/-- The declared pins, in declaration order. -/
def cfgPins (outs : List (String × PinConfig)) : List Gpio :=
  outs.map (fun oc => oc.2.gpio)

/-- The declared strip labels, in declaration order. -/
def cfgLabels (outs : List (String × PinConfig)) : List String :=
  (outs.map (fun oc => oc.2.strips.map (fun s => s.label))).flatten

/-- A strip fits in a single DMX universe for its output's pixel type. -/
def stripFits (ptype : String) (s : LedStrip) : Prop :=
  s.start_channel - 1 + s.pixel_count * profileSizeOf ptype ≤ DMX_UNI_SIZE

instance (ptype : String) (s : LedStrip) : Decidable (stripFits ptype s) := by
  unfold stripFits; infer_instance

theorem validateStrip_decomp (out ptype : String) (lb : List String)
    (ms : List Violation) (s : LedStrip) :
    validateStrip out ptype (lb, ms) s =
      ((validateStrip out ptype (lb, []) s).1,
       ms ++ (validateStrip out ptype (lb, []) s).2) := by
  by_cases h1 : s.label ∈ lb <;>
    by_cases h2 : s.start_channel - 1 + s.pixel_count * profileSizeOf ptype > DMX_UNI_SIZE <;>
    simp [validateStrip, h1, h2]

theorem validateStrip_fst (out ptype : String) (lb : List String)
    (ms : List Violation) (s : LedStrip) :
    (validateStrip out ptype (lb, ms) s).1 =
      if s.label ∈ lb then lb else lb ++ [s.label] := by
  by_cases h1 : s.label ∈ lb <;>
    by_cases h2 : s.start_channel - 1 + s.pixel_count * profileSizeOf ptype > DMX_UNI_SIZE <;>
    simp [validateStrip, h1, h2]

theorem validateStrip_snd (out ptype : String) (lb : List String) (s : LedStrip) :
    (validateStrip out ptype (lb, []) s).2 =
      (if s.label ∈ lb then [Violation.labelReuse out s.label] else []) ++
      (if stripFits ptype s then [] else [Violation.oversize out s.label]) := by
  have hiff : (s.start_channel - 1 + s.pixel_count * profileSizeOf ptype > DMX_UNI_SIZE)
      ↔ ¬ stripFits ptype s := by
    unfold stripFits; omega
  by_cases h1 : s.label ∈ lb <;> by_cases h2 : stripFits ptype s <;>
    simp [validateStrip, h1, h2, hiff]

theorem foldVS_decomp (out ptype : String) :
    ∀ (strips : List LedStrip) (lb : List String) (ms : List Violation),
      strips.foldl (validateStrip out ptype) (lb, ms) =
        ((strips.foldl (validateStrip out ptype) (lb, [])).1,
         ms ++ (strips.foldl (validateStrip out ptype) (lb, [])).2) := by
  intro strips
  induction strips with
  | nil => intro lb ms; simp
  | cons s rest ih =>
    intro lb ms
    simp only [List.foldl_cons]
    rw [validateStrip_decomp out ptype lb ms s]
    rw [ih (validateStrip out ptype (lb, []) s).1
      (ms ++ (validateStrip out ptype (lb, []) s).2)]
    rw [ih (validateStrip out ptype (lb, []) s).1
      (validateStrip out ptype (lb, []) s).2]
    simp

theorem foldVS_labels (out ptype : String) :
    ∀ (strips : List LedStrip) (lb : List String) (ms : List Violation) (x : String),
      (x ∈ (strips.foldl (validateStrip out ptype) (lb, ms)).1 ↔
        x ∈ lb ∨ ∃ s ∈ strips, s.label = x) := by
  intro strips
  induction strips with
  | nil => intro lb ms x; simp
  | cons s rest ih =>
    intro lb ms x
    simp only [List.foldl_cons]
    rw [show validateStrip out ptype (lb, ms) s
        = ((validateStrip out ptype (lb, ms) s).1, (validateStrip out ptype (lb, ms) s).2)
        from rfl, validateStrip_fst]
    rw [ih _ _ x]
    by_cases hs : s.label ∈ lb
    · simp only [if_pos hs]
      constructor
      · rintro (h | ⟨s', hs', rfl⟩)
        · exact Or.inl h
        · exact Or.inr ⟨s', List.mem_cons_of_mem _ hs', rfl⟩
      · rintro (h | ⟨s', hs', rfl⟩)
        · exact Or.inl h
        · rcases List.mem_cons.mp hs' with rfl | hs'
          · exact Or.inl hs
          · exact Or.inr ⟨s', hs', rfl⟩
    · simp only [if_neg hs, List.mem_append, List.mem_singleton]
      constructor
      · rintro ((h | h) | ⟨s', hs', rfl⟩)
        · exact Or.inl h
        · exact Or.inr ⟨s, List.mem_cons_self _ _, h.symm⟩
        · exact Or.inr ⟨s', List.mem_cons_of_mem _ hs', rfl⟩
      · rintro (h | ⟨s', hs', rfl⟩)
        · exact Or.inl (Or.inl h)
        · rcases List.mem_cons.mp hs' with rfl | hs'
          · exact Or.inl (Or.inr rfl)
          · exact Or.inr ⟨s', hs', rfl⟩

theorem validateOutput_decomp (gp : List Gpio) (lb : List String)
    (ms : List Violation) (oc : String × PinConfig) :
    validateOutput (gp, lb, ms) oc =
      ((validateOutput (gp, lb, []) oc).1,
       (validateOutput (gp, lb, []) oc).2.1,
       ms ++ (validateOutput (gp, lb, []) oc).2.2) := by
  by_cases h : oc.2.gpio ∈ gp
  · simp only [validateOutput, if_pos h, List.nil_append]
    rw [foldVS_decomp oc.1 oc.2.pixel_type oc.2.strips lb
      (ms ++ [Violation.pinReuse oc.1 oc.2.gpio])]
    rw [foldVS_decomp oc.1 oc.2.pixel_type oc.2.strips lb
      [Violation.pinReuse oc.1 oc.2.gpio]]
    simp
  · simp only [validateOutput, if_neg h, List.nil_append]
    rw [foldVS_decomp oc.1 oc.2.pixel_type oc.2.strips lb ms]

theorem validateOutput_fst (gp : List Gpio) (lb : List String)
    (ms : List Violation) (oc : String × PinConfig) :
    (validateOutput (gp, lb, ms) oc).1 =
      if oc.2.gpio ∈ gp then gp else gp ++ [oc.2.gpio] := by
  by_cases h : oc.2.gpio ∈ gp <;> simp [validateOutput, h]

theorem validateOutput_labels (gp : List Gpio) (lb : List String)
    (ms : List Violation) (oc : String × PinConfig) (x : String) :
    (x ∈ (validateOutput (gp, lb, ms) oc).2.1 ↔
      x ∈ lb ∨ ∃ s ∈ oc.2.strips, s.label = x) := by
  by_cases h : oc.2.gpio ∈ gp <;>
    simp only [validateOutput, if_pos, if_neg, h, if_true, if_false] <;>
    exact foldVS_labels oc.1 oc.2.pixel_type oc.2.strips lb _ x

theorem foldVO_decomp :
    ∀ (outs : List (String × PinConfig)) (gp : List Gpio) (lb : List String)
      (ms : List Violation),
      outs.foldl validateOutput (gp, lb, ms) =
        ((outs.foldl validateOutput (gp, lb, [])).1,
         (outs.foldl validateOutput (gp, lb, [])).2.1,
         ms ++ (outs.foldl validateOutput (gp, lb, [])).2.2) := by
  intro outs
  induction outs with
  | nil => intro gp lb ms; simp
  | cons oc rest ih =>
    intro gp lb ms
    simp only [List.foldl_cons]
    rw [validateOutput_decomp gp lb ms oc]
    rw [ih (validateOutput (gp, lb, []) oc).1 (validateOutput (gp, lb, []) oc).2.1
      (ms ++ (validateOutput (gp, lb, []) oc).2.2)]
    rw [ih (validateOutput (gp, lb, []) oc).1 (validateOutput (gp, lb, []) oc).2.1
      (validateOutput (gp, lb, []) oc).2.2]
    simp

theorem foldVS_mem_mono (out ptype : String) (strips : List LedStrip)
    (lb : List String) (ms : List Violation) (v : Violation) (hv : v ∈ ms) :
    v ∈ (strips.foldl (validateStrip out ptype) (lb, ms)).2 := by
  rw [foldVS_decomp]
  exact List.mem_append_left _ hv

theorem foldVO_mem_mono (outs : List (String × PinConfig)) (gp : List Gpio)
    (lb : List String) (ms : List Violation) (v : Violation) (hv : v ∈ ms) :
    v ∈ (outs.foldl validateOutput (gp, lb, ms)).2.2 := by
  rw [foldVO_decomp]
  exact List.mem_append_left _ hv

theorem validateStrip_oversize_mem (out ptype : String) (lb : List String)
    (ms : List Violation) (s : LedStrip) (hfit : ¬ stripFits ptype s) :
    Violation.oversize out s.label ∈ (validateStrip out ptype (lb, ms) s).2 := by
  have h2 : s.start_channel - 1 + s.pixel_count * profileSizeOf ptype > DMX_UNI_SIZE := by
    unfold stripFits at hfit; omega
  by_cases h1 : s.label ∈ lb <;> simp [validateStrip, h1, h2]

theorem validateStrip_labelReuse_mem (out ptype : String) (lb : List String)
    (ms : List Violation) (s : LedStrip) (hdup : s.label ∈ lb) :
    Violation.labelReuse out s.label ∈ (validateStrip out ptype (lb, ms) s).2 := by
  by_cases h2 : s.start_channel - 1 + s.pixel_count * profileSizeOf ptype > DMX_UNI_SIZE <;>
    simp [validateStrip, hdup, h2]

theorem foldVS_oversize (out ptype : String) :
    ∀ (strips : List LedStrip) (lb : List String) (ms : List Violation) (s : LedStrip),
      s ∈ strips → ¬ stripFits ptype s →
      Violation.oversize out s.label ∈ (strips.foldl (validateStrip out ptype) (lb, ms)).2 := by
  intro strips
  induction strips with
  | nil => intro lb ms s hs; cases hs
  | cons s' rest ih =>
    intro lb ms s hs hfit
    simp only [List.foldl_cons]
    rw [show validateStrip out ptype (lb, ms) s'
        = ((validateStrip out ptype (lb, ms) s').1, (validateStrip out ptype (lb, ms) s').2)
        from rfl]
    rcases List.mem_cons.mp hs with rfl | hs
    · exact foldVS_mem_mono out ptype rest _ _ _
        (validateStrip_oversize_mem out ptype lb ms s hfit)
    · exact ih _ _ s hs hfit

theorem foldVS_labelReuse :
    ∀ (spre : List LedStrip) (s : LedStrip) (spost : List LedStrip)
      (out ptype : String) (lb : List String) (ms : List Violation),
      (s.label ∈ lb ∨ s.label ∈ spre.map (fun x => x.label)) →
      Violation.labelReuse out s.label ∈
        ((spre ++ s :: spost).foldl (validateStrip out ptype) (lb, ms)).2 := by
  intro spre
  induction spre with
  | nil =>
    intro s spost out ptype lb ms h
    rcases h with h | h
    · simp only [List.nil_append, List.foldl_cons]
      rw [show validateStrip out ptype (lb, ms) s
          = ((validateStrip out ptype (lb, ms) s).1, (validateStrip out ptype (lb, ms) s).2)
          from rfl]
      exact foldVS_mem_mono out ptype spost _ _ _
        (validateStrip_labelReuse_mem out ptype lb ms s h)
    · simp at h
  | cons s' spre' ih =>
    intro s spost out ptype lb ms h
    simp only [List.cons_append, List.foldl_cons]
    rw [show validateStrip out ptype (lb, ms) s'
        = ((validateStrip out ptype (lb, ms) s').1, (validateStrip out ptype (lb, ms) s').2)
        from rfl, validateStrip_fst]
    apply ih
    rcases h with h | h
    · left
      split
      · exact h
      · exact List.mem_append_left _ h
    · simp only [List.map_cons, List.mem_cons] at h
      rcases h with h | h
      · left
        by_cases hs' : s'.label ∈ lb
        · simp only [if_pos hs']; rw [h]; exact hs'
        · simp only [if_neg hs']; rw [h]; exact List.mem_append_right _ (by simp)
      · right; exact h

theorem validateOutput_oversize_mem (gp : List Gpio) (lb : List String)
    (ms : List Violation) (oc : String × PinConfig) (s : LedStrip)
    (hs : s ∈ oc.2.strips) (hfit : ¬ stripFits oc.2.pixel_type s) :
    Violation.oversize oc.1 s.label ∈ (validateOutput (gp, lb, ms) oc).2.2 := by
  by_cases h : oc.2.gpio ∈ gp
  · simp only [validateOutput, if_pos h]
    exact foldVS_oversize oc.1 oc.2.pixel_type oc.2.strips lb _ s hs hfit
  · simp only [validateOutput, if_neg h]
    exact foldVS_oversize oc.1 oc.2.pixel_type oc.2.strips lb _ s hs hfit

theorem validateOutput_pinReuse_mem (gp : List Gpio) (lb : List String)
    (ms : List Violation) (oc : String × PinConfig) (h : oc.2.gpio ∈ gp) :
    Violation.pinReuse oc.1 oc.2.gpio ∈ (validateOutput (gp, lb, ms) oc).2.2 := by
  simp only [validateOutput, if_pos h]
  exact foldVS_mem_mono _ _ _ _ _ _ (by simp)

theorem validateOutput_labelReuse_mem (gp : List Gpio) (lb : List String)
    (ms : List Violation) (oc : String × PinConfig) (spre : List LedStrip)
    (s : LedStrip) (spost : List LedStrip) (hsplit : oc.2.strips = spre ++ s :: spost)
    (h : s.label ∈ lb ∨ s.label ∈ spre.map (fun x => x.label)) :
    Violation.labelReuse oc.1 s.label ∈ (validateOutput (gp, lb, ms) oc).2.2 := by
  by_cases hg : oc.2.gpio ∈ gp
  · simp only [validateOutput, if_pos hg]
    rw [hsplit]
    exact foldVS_labelReuse spre s spost oc.1 oc.2.pixel_type lb _ h
  · simp only [validateOutput, if_neg hg]
    rw [hsplit]
    exact foldVS_labelReuse spre s spost oc.1 oc.2.pixel_type lb _ h

theorem foldVO_oversize :
    ∀ (outs : List (String × PinConfig)) (gp : List Gpio) (lb : List String)
      (ms : List Violation) (oc : String × PinConfig) (s : LedStrip),
      oc ∈ outs → s ∈ oc.2.strips → ¬ stripFits oc.2.pixel_type s →
      Violation.oversize oc.1 s.label ∈ (outs.foldl validateOutput (gp, lb, ms)).2.2 := by
  intro outs
  induction outs with
  | nil => intro gp lb ms oc s hoc; cases hoc
  | cons oc' rest ih =>
    intro gp lb ms oc s hoc hs hfit
    simp only [List.foldl_cons]
    rw [show validateOutput (gp, lb, ms) oc'
        = ((validateOutput (gp, lb, ms) oc').1, (validateOutput (gp, lb, ms) oc').2.1,
           (validateOutput (gp, lb, ms) oc').2.2) from rfl]
    rcases List.mem_cons.mp hoc with rfl | hoc
    · exact foldVO_mem_mono rest _ _ _ _
        (validateOutput_oversize_mem gp lb ms oc s hs hfit)
    · exact ih _ _ _ oc s hoc hs hfit

theorem foldVO_pinReuse :
    ∀ (pre : List (String × PinConfig)) (oc : String × PinConfig)
      (post : List (String × PinConfig)) (gp : List Gpio) (lb : List String)
      (ms : List Violation),
      (oc.2.gpio ∈ gp ∨ oc.2.gpio ∈ cfgPins pre) →
      Violation.pinReuse oc.1 oc.2.gpio ∈
        ((pre ++ oc :: post).foldl validateOutput (gp, lb, ms)).2.2 := by
  intro pre
  induction pre with
  | nil =>
    intro oc post gp lb ms h
    rcases h with h | h
    · simp only [List.nil_append, List.foldl_cons]
      rw [show validateOutput (gp, lb, ms) oc
          = ((validateOutput (gp, lb, ms) oc).1, (validateOutput (gp, lb, ms) oc).2.1,
             (validateOutput (gp, lb, ms) oc).2.2) from rfl]
      exact foldVO_mem_mono post _ _ _ _ (validateOutput_pinReuse_mem gp lb ms oc h)
    · simp [cfgPins] at h
  | cons o' pre' ih =>
    intro oc post gp lb ms h
    simp only [List.cons_append, List.foldl_cons]
    rw [show validateOutput (gp, lb, ms) o'
        = ((validateOutput (gp, lb, ms) o').1, (validateOutput (gp, lb, ms) o').2.1,
           (validateOutput (gp, lb, ms) o').2.2) from rfl]
    apply ih
    rcases h with h | h
    · left
      rw [validateOutput_fst]
      split
      · exact h
      · exact List.mem_append_left _ h
    · simp only [cfgPins, List.map_cons, List.mem_cons] at h
      rcases h with h | h
      · left
        rw [validateOutput_fst]
        by_cases hg : o'.2.gpio ∈ gp
        · simp only [if_pos hg]; rw [h]; exact hg
        · simp only [if_neg hg]; rw [h]; exact List.mem_append_right _ (by simp)
      · right; exact h

theorem foldVO_labelReuse :
    ∀ (pre : List (String × PinConfig)) (oc : String × PinConfig)
      (post : List (String × PinConfig)) (spre : List LedStrip) (s : LedStrip)
      (spost : List LedStrip) (gp : List Gpio) (lb : List String) (ms : List Violation),
      oc.2.strips = spre ++ s :: spost →
      (s.label ∈ lb ∨ s.label ∈ cfgLabels pre ∨ s.label ∈ spre.map (fun x => x.label)) →
      Violation.labelReuse oc.1 s.label ∈
        ((pre ++ oc :: post).foldl validateOutput (gp, lb, ms)).2.2 := by
  intro pre
  induction pre with
  | nil =>
    intro oc post spre s spost gp lb ms hsplit h
    have h' : s.label ∈ lb ∨ s.label ∈ spre.map (fun x => x.label) := by
      rcases h with h | h | h
      · exact Or.inl h
      · simp [cfgLabels] at h
      · exact Or.inr h
    simp only [List.nil_append, List.foldl_cons]
    rw [show validateOutput (gp, lb, ms) oc
        = ((validateOutput (gp, lb, ms) oc).1, (validateOutput (gp, lb, ms) oc).2.1,
           (validateOutput (gp, lb, ms) oc).2.2) from rfl]
    exact foldVO_mem_mono post _ _ _ _
      (validateOutput_labelReuse_mem gp lb ms oc spre s spost hsplit h')
  | cons o' pre' ih =>
    intro oc post spre s spost gp lb ms hsplit h
    simp only [List.cons_append, List.foldl_cons]
    rw [show validateOutput (gp, lb, ms) o'
        = ((validateOutput (gp, lb, ms) o').1, (validateOutput (gp, lb, ms) o').2.1,
           (validateOutput (gp, lb, ms) o').2.2) from rfl]
    apply ih _ _ _ s _ _ _ _ hsplit
    rcases h with h | h | h
    · left
      exact (validateOutput_labels gp lb ms o' s.label).mpr (Or.inl h)
    · have hcl : cfgLabels (o' :: pre') =
          o'.2.strips.map (fun x => x.label) ++ cfgLabels pre' := by
        simp [cfgLabels]
      rw [hcl] at h
      rcases List.mem_append.mp h with h | h
      · left
        refine (validateOutput_labels gp lb ms o' s.label).mpr (Or.inr ?_)
        obtain ⟨s', hs', he⟩ := List.mem_map.mp h
        exact ⟨s', hs', he⟩
      · right; exact Or.inl h
    · right; exact Or.inr h

/-! ## Helper lemmas: the patch-building fold -/

theorem alookup_append_single {κ ν : Type} [DecidableEq κ] :
    ∀ (l : List (κ × ν)) (k : κ) (v : ν) (q : κ),
      alookup (l ++ [(k, v)]) q =
        match alookup l q with
        | some w => some w
        | none => if k = q then some v else none := by
  intro l k v q
  induction l with
  | nil => simp [alookup]
  | cons e rest ih =>
    by_cases h : e.1 = q
    · simp [alookup, h]
    · simpa [alookup, h] using ih

theorem alookup_map_update {κ ν : Type} [DecidableEq κ] (f : ν → ν) :
    ∀ (l : List (κ × ν)) (k q : κ),
      alookup (l.map (fun e => if e.1 = k then (e.1, f e.2) else e)) q =
        if q = k then (alookup l q).map f else alookup l q := by
  intro l k q
  induction l with
  | nil => by_cases h : q = k <;> simp [alookup, h]
  | cons e rest ih =>
    obtain ⟨a, b⟩ := e
    simp only [List.map_cons]
    by_cases hak : a = k
    · rw [if_pos hak]
      by_cases haq : a = q
      · have hqk : q = k := haq ▸ hak
        simp [alookup, haq, hqk]
      · have hqk : ¬ q = k := fun h => haq (hak.trans h.symm)
        simp only [alookup, if_neg haq]
        rw [ih]
    · rw [if_neg (by simpa using hak)]
      by_cases haq : a = q
      · have hqk : ¬ q = k := fun h => hak (haq.trans h)
        simp [alookup, haq, hqk]
      · simp only [alookup, if_neg haq]
        rw [ih]

theorem alookup_map_value {κ ν : Type} [DecidableEq κ] (f : ν → ν) :
    ∀ (l : List (κ × ν)) (q : κ),
      alookup (l.map (fun e => (e.1, f e.2))) q = (alookup l q).map f := by
  intro l q
  induction l with
  | nil => simp [alookup]
  | cons e rest ih =>
    by_cases h : e.1 = q
    · simp [alookup, h]
    · simpa [alookup, h] using ih

theorem alookup_map_append (l : ByUni) (p : FixturePatch) (k q : Nat) :
    alookup (l.map (fun e => if e.1 = k then (e.1, e.2 ++ [p]) else e)) q =
      if q = k then (alookup l q).map (fun b => b ++ [p]) else alookup l q :=
  alookup_map_update (fun b => b ++ [p]) l k q

theorem alookup_addToBuckets (bu : ByUni) (p : FixturePatch) (u : Nat) :
    alookup (addToBuckets bu p) u =
      if u = p.universe_id then some ((alookup bu p.universe_id).getD [] ++ [p])
      else alookup bu u := by
  unfold addToBuckets
  by_cases h : (alookup bu p.universe_id).isSome
  · rw [if_pos h, alookup_map_append]
    obtain ⟨l, hl⟩ := Option.isSome_iff_exists.mp h
    by_cases hu : u = p.universe_id
    · subst hu; simp [hl]
    · simp [hu]
  · rw [if_neg h, alookup_append_single]
    have hn : alookup bu p.universe_id = none := by
      cases he : alookup bu p.universe_id with
      | none => rfl
      | some l => rw [he] at h; simp at h
    have hpu : ∀ hu : ¬ u = p.universe_id, ¬ p.universe_id = u :=
      fun hu h => hu h.symm
    by_cases hu : u = p.universe_id
    · subst hu; simp [hn]
    · cases he : alookup bu u with
      | none => simp [hpu hu, hu]
      | some l => simp [hu]

theorem alookup_foldl_addToBuckets :
    ∀ (ps : List FixturePatch) (bu : ByUni) (u : Nat),
      alookup (ps.foldl addToBuckets bu) u =
        match alookup bu u with
        | some l => some (l ++ ps.filter (fun p => decide (p.universe_id = u)))
        | none =>
          if ps.filter (fun p => decide (p.universe_id = u)) = [] then none
          else some (ps.filter (fun p => decide (p.universe_id = u))) := by
  intro ps
  induction ps with
  | nil =>
    intro bu u
    cases h : alookup bu u <;> simp [h]
  | cons p rest ih =>
    intro bu u
    simp only [List.foldl_cons]
    rw [ih (addToBuckets bu p) u, alookup_addToBuckets]
    by_cases hu : p.universe_id = u
    · subst hu
      rw [if_pos rfl]
      cases h0 : alookup bu p.universe_id with
      | some l => simp [h0, List.filter_cons, List.append_assoc]
      | none => simp [h0, List.filter_cons]
    · rw [if_neg (fun h => hu h.symm)]
      cases h0 : alookup bu u <;> simp [h0, List.filter_cons, hu]

theorem alookup_sortBuckets (bu : ByUni) (u : Nat) :
    alookup (sortBuckets bu) u = (alookup bu u).map bubbleSortCode := by
  unfold sortBuckets
  exact alookup_map_value bubbleSortCode bu u

theorem buildStrips_snd (oc : String × PinConfig) :
    ∀ (strips : List LedStrip) (bo : ByOut) (bu : ByUni) (pos : Nat),
      (buildStrips oc bo bu pos strips).2 =
        (stripsPatches oc pos strips).foldl addToBuckets bu := by
  intro strips
  induction strips with
  | nil => intro bo bu pos; rfl
  | cons s rest ih =>
    intro bo bu pos
    simp only [buildStrips, stripsPatches, List.foldl_cons]
    exact ih _ _ _

theorem buildOutputs_snd :
    ∀ (outs : List (String × PinConfig)) (bo : ByOut) (bu : ByUni),
      (buildOutputs (bo, bu) outs).2 =
        ((outs.map (fun oc => stripsPatches oc 0 oc.2.strips)).flatten).foldl
          addToBuckets bu := by
  intro outs
  induction outs with
  | nil => intro bo bu; rfl
  | cons oc rest ih =>
    intro bo bu
    simp only [buildOutputs, List.map_cons, List.flatten_cons, List.foldl_append]
    rw [show buildStrips oc (alistSet bo oc.2.gpio []) bu 0 oc.2.strips
        = ((buildStrips oc (alistSet bo oc.2.gpio []) bu 0 oc.2.strips).1,
           (buildStrips oc (alistSet bo oc.2.gpio []) bu 0 oc.2.strips).2) from rfl]
    rw [ih _ _]
    rw [buildStrips_snd]

theorem mem_stripsPatches (oc : String × PinConfig) :
    ∀ (strips : List LedStrip) (pos : Nat) (p : FixturePatch),
      p ∈ stripsPatches oc pos strips → ∃ s ∈ strips, ∃ k, p = mkPatch oc s k := by
  intro strips
  induction strips with
  | nil => intro pos p h; simp [stripsPatches] at h
  | cons s rest ih =>
    intro pos p h
    simp only [stripsPatches] at h
    rcases List.mem_cons.mp h with rfl | h
    · exact ⟨s, List.mem_cons_self _ _, pos, rfl⟩
    · obtain ⟨s', hs', k, rfl⟩ := ih (pos + 1) p h
      exact ⟨s', List.mem_cons_of_mem _ hs', k, rfl⟩

theorem mem_flattenPatches (cfg : FullConfig) (p : FixturePatch)
    (h : p ∈ flattenPatches cfg) :
    ∃ oc ∈ cfg.outputs, ∃ s ∈ oc.2.strips, ∃ k, p = mkPatch oc s k := by
  simp only [flattenPatches, List.mem_flatten, List.mem_map] at h
  obtain ⟨l, ⟨oc, hoc, rfl⟩, hp⟩ := h
  obtain ⟨s, hs, k, rfl⟩ := mem_stripsPatches oc oc.2.strips 0 _ hp
  exact ⟨oc, hoc, s, hs, k, rfl⟩

theorem mem_addToBuckets_entries (bu : ByUni) (q : FixturePatch)
    (e : Nat × List FixturePatch) (he : e ∈ addToBuckets bu q)
    (p : FixturePatch) (hp : p ∈ e.2) :
    (∃ e' ∈ bu, p ∈ e'.2) ∨ p = q := by
  unfold addToBuckets at he
  split at he
  · obtain ⟨e', he', rfl⟩ := List.mem_map.mp he
    by_cases hk : e'.1 = q.universe_id
    · simp only [if_pos hk] at hp
      rcases List.mem_append.mp hp with h | h
      · exact Or.inl ⟨e', he', h⟩
      · exact Or.inr (List.mem_singleton.mp h)
    · simp only [if_neg hk] at hp
      exact Or.inl ⟨e', he', hp⟩
  · rcases List.mem_append.mp he with h | h
    · exact Or.inl ⟨e, h, hp⟩
    · rw [List.mem_singleton.mp h] at hp
      exact Or.inr (List.mem_singleton.mp hp)

theorem mem_foldl_addToBuckets :
    ∀ (ps : List FixturePatch) (bu : ByUni) (e : Nat × List FixturePatch)
      (p : FixturePatch),
      e ∈ ps.foldl addToBuckets bu → p ∈ e.2 →
      (∃ e' ∈ bu, p ∈ e'.2) ∨ p ∈ ps := by
  intro ps
  induction ps with
  | nil => intro bu e p he hp; exact Or.inl ⟨e, he, hp⟩
  | cons q rest ih =>
    intro bu e p he hp
    simp only [List.foldl_cons] at he
    rcases ih (addToBuckets bu q) e p he hp with h | h
    · obtain ⟨e', he', hp'⟩ := h
      rcases mem_addToBuckets_entries bu q e' he' p hp' with h' | rfl
      · exact Or.inl h'
      · exact Or.inr (List.mem_cons_self _ _)
    · exact Or.inr (List.mem_cons_of_mem _ h)

theorem mem_appendOut_entries (bo : ByOut) (g : Gpio) (q : FixturePatch)
    (e : Gpio × List FixturePatch) (he : e ∈ appendOut bo g q)
    (p : FixturePatch) (hp : p ∈ e.2) :
    (∃ e' ∈ bo, p ∈ e'.2) ∨ p = q := by
  unfold appendOut at he
  obtain ⟨e', he', rfl⟩ := List.mem_map.mp he
  by_cases hk : e'.1 = g
  · simp only [if_pos hk] at hp
    rcases List.mem_append.mp hp with h | h
    · exact Or.inl ⟨e', he', h⟩
    · exact Or.inr (List.mem_singleton.mp h)
  · simp only [if_neg hk] at hp
    exact Or.inl ⟨e', he', hp⟩

theorem mem_alistSet_nil_entries (bo : ByOut) (g : Gpio)
    (e : Gpio × List FixturePatch)
    (he : e ∈ alistSet bo g ([] : List FixturePatch))
    (p : FixturePatch) (hp : p ∈ e.2) :
    ∃ e' ∈ bo, p ∈ e'.2 := by
  unfold alistSet at he
  split at he
  · obtain ⟨e', he', rfl⟩ := List.mem_map.mp he
    by_cases hk : e'.1 = g
    · simp only [if_pos hk] at hp
      simp at hp
    · simp only [if_neg hk] at hp
      exact ⟨e', he', hp⟩
  · rcases List.mem_append.mp he with h | h
    · exact ⟨e, h, hp⟩
    · rw [List.mem_singleton.mp h] at hp
      simp at hp

theorem mem_buildStrips_fst (oc : String × PinConfig) :
    ∀ (strips : List LedStrip) (bo : ByOut) (bu : ByUni) (pos : Nat)
      (e : Gpio × List FixturePatch) (p : FixturePatch),
      e ∈ (buildStrips oc bo bu pos strips).1 → p ∈ e.2 →
      (∃ e' ∈ bo, p ∈ e'.2) ∨ ∃ s ∈ strips, ∃ k, p = mkPatch oc s k := by
  intro strips
  induction strips with
  | nil => intro bo bu pos e p he hp; exact Or.inl ⟨e, he, hp⟩
  | cons s rest ih =>
    intro bo bu pos e p he hp
    simp only [buildStrips] at he
    rcases ih _ _ _ e p he hp with h | ⟨s', hs', k, rfl⟩
    · obtain ⟨e', he', hp'⟩ := h
      rcases mem_appendOut_entries bo oc.2.gpio (mkPatch oc s pos) e' he' p hp'
        with h' | rfl
      · exact Or.inl h'
      · exact Or.inr ⟨s, List.mem_cons_self _ _, pos, rfl⟩
    · exact Or.inr ⟨s', List.mem_cons_of_mem _ hs', k, rfl⟩

theorem mem_buildOutputs_fst :
    ∀ (outs : List (String × PinConfig)) (bo : ByOut) (bu : ByUni)
      (e : Gpio × List FixturePatch) (p : FixturePatch),
      e ∈ (buildOutputs (bo, bu) outs).1 → p ∈ e.2 →
      (∃ e' ∈ bo, p ∈ e'.2) ∨ ∃ oc ∈ outs, ∃ s ∈ oc.2.strips, ∃ k, p = mkPatch oc s k := by
  intro outs
  induction outs with
  | nil => intro bo bu e p he hp; exact Or.inl ⟨e, he, hp⟩
  | cons oc rest ih =>
    intro bo bu e p he hp
    simp only [buildOutputs] at he
    rw [show buildStrips oc (alistSet bo oc.2.gpio []) bu 0 oc.2.strips
        = ((buildStrips oc (alistSet bo oc.2.gpio []) bu 0 oc.2.strips).1,
           (buildStrips oc (alistSet bo oc.2.gpio []) bu 0 oc.2.strips).2)
        from rfl] at he
    rcases ih _ _ e p he hp with h | ⟨oc', hoc', s, hs, k, rfl⟩
    · obtain ⟨e', he', hp'⟩ := h
      rcases mem_buildStrips_fst oc oc.2.strips _ _ 0 e' p he' hp'
        with h' | ⟨s, hs, k, rfl⟩
      · obtain ⟨e'', he'', hp''⟩ := h'
        exact Or.inl (mem_alistSet_nil_entries bo oc.2.gpio e'' he'' p hp'')
      · exact Or.inr ⟨oc, List.mem_cons_self _ _, s, hs, k, rfl⟩
    · exact Or.inr ⟨oc', List.mem_cons_of_mem _ hoc', s, hs, k, rfl⟩

/-! ## Claim C4: validation collects every violation before failing -/

/-- C4: for every configuration violating a validation rule, construction
raises a validation error carrying the collected violation list and builds
neither index (`.error` — no patch object is inserted); every offender of
every rule is in that one list (so validation scans the entire
configuration rather than stopping at the first failure): every strip that
exceeds a universe, every output whose pin was already declared, and every
strip whose label was already declared; and when the violation list is
empty construction succeeds. -/
theorem validation_spec (cfg : FullConfig) :
    (validateCfg cfg ≠ [] → patchFixtures cfg = .error (validateCfg cfg)) ∧
    (validateCfg cfg = [] → ∃ t, patchFixtures cfg = .ok t) ∧
    (∀ oc ∈ cfg.outputs, ∀ s ∈ oc.2.strips, ¬ stripFits oc.2.pixel_type s →
      Violation.oversize oc.1 s.label ∈ validateCfg cfg) ∧
    (∀ pre oc post, cfg.outputs = pre ++ oc :: post → oc.2.gpio ∈ cfgPins pre →
      Violation.pinReuse oc.1 oc.2.gpio ∈ validateCfg cfg) ∧
    (∀ pre oc post spre s spost, cfg.outputs = pre ++ oc :: post →
      oc.2.strips = spre ++ s :: spost →
      (s.label ∈ cfgLabels pre ∨ s.label ∈ spre.map (fun x => x.label)) →
      Violation.labelReuse oc.1 s.label ∈ validateCfg cfg) := by
  refine ⟨?_, ?_, ?_, ?_, ?_⟩
  · intro h
    simp [patchFixtures, h]
  · intro h
    refine ⟨((buildOutputs ([], []) cfg.outputs).1,
      sortBuckets (buildOutputs ([], []) cfg.outputs).2), ?_⟩
    simp [patchFixtures, h]
  · intro oc hoc s hs hfit
    exact foldVO_oversize cfg.outputs [] [] [] oc s hoc hs hfit
  · intro pre oc post hsplit hpin
    unfold validateCfg
    rw [hsplit]
    exact foldVO_pinReuse pre oc post [] [] [] (Or.inr hpin)
  · intro pre oc post spre s spost hsplit hstrips hlab
    unfold validateCfg
    rw [hsplit]
    refine foldVO_labelReuse pre oc post spre s spost [] [] [] hstrips ?_
    rcases hlab with h | h
    · exact Or.inr (Or.inl h)
    · exact Or.inr (Or.inr h)

/-- Witness for C4: a configuration with one offender of each rule
(an oversize strip, a reused label, a reused pin) yields an error listing
all three, and a clean configuration builds. -/
theorem validation_spec_witness :
    (Violation.oversize "out1" "a" ∈ validateCfg ⟨[
        ("out1", ⟨5, "rgb8", [⟨"a", 171, 1, 1⟩, ⟨"b", 1, 1, 1⟩]⟩),
        ("out2", ⟨5, "rgb8", [⟨"b", 1, 2, 1⟩]⟩)]⟩) ∧
    (Violation.pinReuse "out2" 5 ∈ validateCfg ⟨[
        ("out1", ⟨5, "rgb8", [⟨"a", 171, 1, 1⟩, ⟨"b", 1, 1, 1⟩]⟩),
        ("out2", ⟨5, "rgb8", [⟨"b", 1, 2, 1⟩]⟩)]⟩) ∧
    (Violation.labelReuse "out2" "b" ∈ validateCfg ⟨[
        ("out1", ⟨5, "rgb8", [⟨"a", 171, 1, 1⟩, ⟨"b", 1, 1, 1⟩]⟩),
        ("out2", ⟨5, "rgb8", [⟨"b", 1, 2, 1⟩]⟩)]⟩) ∧
    patchFixtures ⟨[
        ("out1", ⟨5, "rgb8", [⟨"a", 171, 1, 1⟩, ⟨"b", 1, 1, 1⟩]⟩),
        ("out2", ⟨5, "rgb8", [⟨"b", 1, 2, 1⟩]⟩)]⟩ =
      .error (validateCfg ⟨[
        ("out1", ⟨5, "rgb8", [⟨"a", 171, 1, 1⟩, ⟨"b", 1, 1, 1⟩]⟩),
        ("out2", ⟨5, "rgb8", [⟨"b", 1, 2, 1⟩]⟩)]⟩) := by
  refine ⟨?_, ?_, ?_, ?_⟩
  · exact (validation_spec _).2.2.1 ("out1", ⟨5, "rgb8", [⟨"a", 171, 1, 1⟩, ⟨"b", 1, 1, 1⟩]⟩)
      (by simp) ⟨"a", 171, 1, 1⟩ (by simp) (by decide)
  · exact (validation_spec _).2.2.2.1 [("out1", ⟨5, "rgb8", [⟨"a", 171, 1, 1⟩, ⟨"b", 1, 1, 1⟩]⟩)]
      ("out2", ⟨5, "rgb8", [⟨"b", 1, 2, 1⟩]⟩) [] rfl (by decide)
  · exact (validation_spec _).2.2.2.2 [("out1", ⟨5, "rgb8", [⟨"a", 171, 1, 1⟩, ⟨"b", 1, 1, 1⟩]⟩)]
      ("out2", ⟨5, "rgb8", [⟨"b", 1, 2, 1⟩]⟩) [] [] ⟨"b", 1, 2, 1⟩ [] rfl rfl
      (by constructor; decide)
  · exact (validation_spec _).1 (by decide)

/-- Decomposition of a successful build: the violation list was empty and
the table is the built pair (by-output index, sorted by-universe index). -/
theorem patchFixtures_ok (cfg : FullConfig) (t : ByOut × ByUni)
    (h : patchFixtures cfg = .ok t) :
    validateCfg cfg = [] ∧
    t = ((buildOutputs ([], []) cfg.outputs).1,
         sortBuckets (buildOutputs ([], []) cfg.outputs).2) := by
  have herrs : validateCfg cfg = [] := by
    by_contra hne
    simp [patchFixtures, hne] at h
  refine ⟨herrs, ?_⟩
  simp only [patchFixtures, herrs, if_pos] at h
  injection h with h'
  exact h'.symm

/-- Every patch in either index of a built table is one of the declared
patches of the configuration. -/
theorem mem_table_flatten (cfg : FullConfig) (t : ByOut × ByUni)
    (h : patchFixtures cfg = .ok t) (p : FixturePatch)
    (hp : (∃ e ∈ t.1, p ∈ e.2) ∨ ∃ e ∈ t.2, p ∈ e.2) :
    ∃ oc ∈ cfg.outputs, ∃ s ∈ oc.2.strips, ∃ k, p = mkPatch oc s k := by
  obtain ⟨-, rfl⟩ := patchFixtures_ok cfg t h
  rcases hp with ⟨e, he, hpe⟩ | ⟨e, he, hpe⟩
  · rcases mem_buildOutputs_fst cfg.outputs [] [] e p he hpe with ⟨e', he', -⟩ | hfound
    · simp at he'
    · exact hfound
  · obtain ⟨e', he', rfl⟩ := List.mem_map.mp he
    have hpe' : p ∈ e'.2 := (bubbleSortCode_perm e'.2).mem_iff.mp hpe
    have hBU := buildOutputs_snd cfg.outputs [] []
    rw [hBU] at he'
    rcases mem_foldl_addToBuckets _ [] e' p he' hpe' with ⟨e'', he'', -⟩ | hmem
    · simp at he''
    · exact mem_flattenPatches cfg p hmem

/-! ## Claim C5: the end-channel invariant of built tables -/

/-- C5: for every strip in a successfully built patch table,
`end_channel = start_channel + pixel_count × profile_footprint − 1` and
`end_channel ≤ 512` (a strip never straddles two universes);
configurations in which a strip would exceed 512 channels are rejected at
validation, so they never build a table. -/
theorem endChannel_invariant (cfg : FullConfig) (t : ByOut × ByUni)
    (h : patchFixtures cfg = .ok t) (p : FixturePatch)
    (hp : (∃ e ∈ t.1, p ∈ e.2) ∨ ∃ e ∈ t.2, p ∈ e.2) :
    p.end_channel = p.start_channel + p.pixel_count * p.pixel_type.profile_size - 1 ∧
    p.end_channel ≤ DMX_UNI_SIZE := by
  obtain ⟨oc, hoc, s, hs, k, rfl⟩ := mem_table_flatten cfg t h p hp
  refine ⟨rfl, ?_⟩
  have hfit : stripFits oc.2.pixel_type s := by
    by_contra hfit
    have hmem := foldVO_oversize cfg.outputs [] [] [] oc s hoc hs hfit
    have herrs := (patchFixtures_ok cfg t h).1
    rw [show (cfg.outputs.foldl validateOutput ([], [], [])).2.2 = validateCfg cfg
      from rfl, herrs] at hmem
    cases hmem
  unfold stripFits profileSizeOf at hfit
  have he : (mkPatch oc s k).end_channel
      = s.start_channel + s.pixel_count * (fixtureOf oc.2.pixel_type).profile_size - 1 := rfl
  rw [he]
  simp only [DMX_UNI_SIZE] at hfit ⊢
  omega

/-- The single-strip configuration of the C5 witness. -/
def c5Cfg : FullConfig := ⟨[("out1", ⟨5, "rgb8", [⟨"w", 10, 7, 3⟩]⟩)]⟩

/-- The patch `c5Cfg` builds: 10 rgb8 pixels from universe 7 at channel 3. -/
def c5Patch : FixturePatch := ⟨"w", .PX_RGB_8, 10, 7, 3, 5, 0⟩

/-- The table `c5Cfg` builds. -/
def c5Table : ByOut × ByUni := ([(5, [c5Patch])], [(7, [c5Patch])])

/-- Witness for C5: the built strip has `end_channel = 3 + 10 × 3 − 1 = 32 ≤ 512`. -/
theorem endChannel_invariant_witness :
    patchFixtures c5Cfg = .ok c5Table ∧
    (c5Patch.end_channel =
      c5Patch.start_channel + c5Patch.pixel_count * c5Patch.pixel_type.profile_size - 1 ∧
     c5Patch.end_channel ≤ DMX_UNI_SIZE) := by
  refine ⟨rfl, ?_⟩
  exact endChannel_invariant c5Cfg c5Table rfl c5Patch
    (Or.inl ⟨(5, [c5Patch]), by simp [c5Table], by simp⟩)

/-! ## Claim C6: the by-universe query is a stable sort by start channel -/

/-- C6: for every built patch table and every universe, the by-universe
query returns that universe's strips sorted ascending by start channel
regardless of declaration order, the sort is stable (strips with equal
start channels keep declaration order: filtering the result by any start
channel yields exactly the declaration-order sublist), the result is a
permutation of the universe's declared strips, and a universe with no
declared strip yields an empty list, never an error. -/
theorem byUniQuery_spec (cfg : FullConfig) (t : ByOut × ByUni)
    (h : patchFixtures cfg = .ok t) (u : Nat) :
    List.Pairwise (fun a b => a.start_channel ≤ b.start_channel)
      (getFixturesByUni t.2 u) ∧
    (∀ c, (getFixturesByUni t.2 u).filter (fun p => decide (p.start_channel = c)) =
      ((flattenPatches cfg).filter (fun p => decide (p.universe_id = u))).filter
        (fun p => decide (p.start_channel = c))) ∧
    (getFixturesByUni t.2 u).Perm
      ((flattenPatches cfg).filter (fun p => decide (p.universe_id = u))) ∧
    ((flattenPatches cfg).filter (fun p => decide (p.universe_id = u)) = [] →
      getFixturesByUni t.2 u = []) := by
  obtain ⟨-, rfl⟩ := patchFixtures_ok cfg t h
  have hBU : alookup (buildOutputs ([], []) cfg.outputs).2 u =
      (if (flattenPatches cfg).filter (fun p => decide (p.universe_id = u)) = []
       then none
       else some ((flattenPatches cfg).filter (fun p => decide (p.universe_id = u)))) := by
    rw [buildOutputs_snd]
    rw [show ((cfg.outputs.map (fun oc => stripsPatches oc 0 oc.2.strips)).flatten)
        = flattenPatches cfg from rfl]
    rw [alookup_foldl_addToBuckets]
    rfl
  by_cases hF : (flattenPatches cfg).filter (fun p => decide (p.universe_id = u)) = []
  · have hnone : getFixturesByUni
        (sortBuckets (buildOutputs ([], []) cfg.outputs).2) u = [] := by
      unfold getFixturesByUni
      rw [alookup_sortBuckets, hBU, if_pos hF]
      rfl
    rw [hnone, hF]
    exact ⟨by simp, fun c => by simp, List.Perm.refl _, fun _ => rfl⟩
  · have hsome : getFixturesByUni
        (sortBuckets (buildOutputs ([], []) cfg.outputs).2) u =
        bubbleSortCode
          ((flattenPatches cfg).filter (fun p => decide (p.universe_id = u))) := by
      unfold getFixturesByUni
      rw [alookup_sortBuckets, hBU, if_neg hF]
      rfl
    rw [hsome]
    exact ⟨bubbleSortCode_sorted _, fun c => bubbleSortCode_filter _ c,
      bubbleSortCode_perm _, fun hc => absurd hc hF⟩

/-- The configuration of the spec's C6 example: two strips of universe 9
declared in reverse start-channel order (31 before 1). -/
def c6Cfg : FullConfig :=
  ⟨[("out1", ⟨5, "rgb8", [⟨"s31", 5, 9, 31⟩, ⟨"s1", 10, 9, 1⟩]⟩)]⟩

/-- The table `c6Cfg` builds: the by-universe bucket is sorted (1 before
31) while the by-output queue keeps declaration order. -/
def c6Table : ByOut × ByUni :=
  ([(5, [⟨"s31", .PX_RGB_8, 5, 9, 31, 5, 0⟩, ⟨"s1", .PX_RGB_8, 10, 9, 1, 5, 1⟩])],
   [(9, [⟨"s1", .PX_RGB_8, 10, 9, 1, 5, 1⟩, ⟨"s31", .PX_RGB_8, 5, 9, 31, 5, 0⟩])])

/-- Witness for C6: the reverse-declared example comes back ordered with
start channel 1 before 31, and an absent universe returns `[]`. -/
theorem byUniQuery_spec_witness :
    patchFixtures c6Cfg = .ok c6Table ∧
    List.Pairwise (fun a b => a.start_channel ≤ b.start_channel)
      (getFixturesByUni c6Table.2 9) ∧
    (getFixturesByUni c6Table.2 9).map (fun p => p.start_channel) = [1, 31] ∧
    getFixturesByUni c6Table.2 4 = [] := by
  refine ⟨rfl, (byUniQuery_spec c6Cfg c6Table rfl 9).1, by decide, ?_⟩
  exact (byUniQuery_spec c6Cfg c6Table rfl 4).2.2.2 (by decide)

/-! ## Claim C10: `getUniverseData` raises on a missing universe -/

/-- C10: for a universe with no captured DMX-data packet,
`sACNmanager.getUniverseData` raises `IndexError` rather than returning an
empty or default result; for a captured universe it returns a
`UniverseData` carrying the record's stored id, priority, source name,
DMX bytes and timestamp string. -/
theorem getUniverseData_spec (st : SacnState) (u : Nat) :
    (alookup st.db u = none →
      getUniverseData st u = .error "IndexError: no existing record for universe") ∧
    (∀ pkt ts, alookup st.db u = some (pkt, ts) →
      getUniverseData st u =
        .ok ⟨pkt.universe_id, pkt.priority, pkt.sourceName, pkt.dmxData, toString ts⟩) := by
  constructor
  · intro h
    simp [getUniverseData, h]
  · intro pkt ts h
    simp [getUniverseData, h]

/-- Witness for C10 at concrete states: an empty capture map raises, and a
one-entry capture map returns its stored record. -/
theorem getUniverseData_spec_witness :
    getUniverseData ⟨[], []⟩ 7 = .error "IndexError: no existing record for universe" ∧
    getUniverseData ⟨[(5, (⟨0, 5, 100, "src", [255, 0]⟩, 3))], []⟩ 5 =
      .ok ⟨5, 100, "src", [255, 0], toString (3 : Int)⟩ := by
  refine ⟨(getUniverseData_spec ⟨[], []⟩ 7).1 rfl, ?_⟩
  exact (getUniverseData_spec _ 5).2 ⟨0, 5, 100, "src", [255, 0]⟩ 3 rfl

/-! ## Claim C7: the bounded-channel overflow policy of `_updateQueue` -/

/-- C7: pushing a snapshot update to the bounded cross-process channel:
when not full the update is enqueued; when full, exactly one stale entry
is dequeued and the update enqueued in its place; when the eviction
dequeue finds the channel already empty, or the channel is still full
after the dequeue, the update is dropped (with a logged error) and the
producer returns rather than blocking; the channel length never exceeds
the configured capacity of 50 entries. -/
theorem updateQueue_spec {α : Type} (q : List α) (d : α) (k1 k2 : Nat) :
    (q.length < queueSize →
      updateQueue q d k1 k2 = (q ++ [d], .enqueued)) ∧
    (¬ q.length < queueSize → q.drop k1 = [] →
      updateQueue q d k1 k2 = ([], .droppedEmpty)) ∧
    (∀ x t, ¬ q.length < queueSize → q.drop k1 = x :: t →
      (t.drop k2).length < queueSize →
      updateQueue q d k1 k2 = (t.drop k2 ++ [d], .evictThenEnqueued)) ∧
    (∀ x t, ¬ q.length < queueSize → q.drop k1 = x :: t →
      ¬ (t.drop k2).length < queueSize →
      updateQueue q d k1 k2 = (t.drop k2, .droppedFull)) ∧
    (q.length ≤ queueSize → (updateQueue q d k1 k2).1.length ≤ queueSize) := by
  refine ⟨?_, ?_, ?_, ?_, ?_⟩
  · intro h; simp [updateQueue, h]
  · intro h he; simp [updateQueue, h, he]
  · intro x t h he hlt; simp [updateQueue, h, he, hlt]; simpa using hlt
  · intro x t h he hge; simp [updateQueue, h, he, hge]; simpa using hge
  · intro hcap
    unfold updateQueue
    split
    · next h => simpa using by omega
    · cases he : q.drop k1 with
      | nil => simp [he, queueSize]
      | cons x t =>
        simp only [he]
        have ht : t.length ≤ q.length - 1 := by
          have := List.length_drop k1 q
          rw [he] at this
          simp at this
          omega
        have h2 := List.length_drop k2 t
        split
        · next hlt => simp; omega
        · next hge => simp; omega

/-- Witness for C7: all four branches and the capacity bound at concrete
channels (capacity 50; `q50` is a full channel of fifty entries). -/
theorem updateQueue_spec_witness :
    updateQueue [1, 2] 9 0 0 = ([1, 2, 9], .enqueued) ∧
    updateQueue (List.replicate 50 0) 9 50 0 = ([], .droppedEmpty) ∧
    updateQueue (List.replicate 50 0) 9 0 0 =
      ((List.replicate 50 0).tail ++ [9], .evictThenEnqueued) ∧
    updateQueue (List.replicate 60 0) 9 0 0 =
      ((List.replicate 60 0).tail, .droppedFull) ∧
    (updateQueue (List.replicate 50 0) 9 0 0).1.length ≤ queueSize := by
  have h1 := (updateQueue_spec [1, 2] 9 0 0).1 (by decide)
  have h2 := (updateQueue_spec (List.replicate 50 (0 : Nat)) 9 50 0).2.1
    (by decide) (by decide)
  have h3 := (updateQueue_spec (List.replicate 50 (0 : Nat)) 9 0 0).2.2.1
    0 (List.replicate 49 0) (by decide) (by decide) (by decide)
  have h4 := (updateQueue_spec (List.replicate 60 (0 : Nat)) 9 0 0).2.2.2.1
    0 (List.replicate 59 0) (by decide) (by decide) (by decide)
  have h5 := (updateQueue_spec (List.replicate 50 (0 : Nat)) 9 0 0).2.2.2.2
    (by decide)
  exact ⟨h1, h2, by simpa using h3, by simpa using h4, h5⟩

/-! ## Claim C8: the per-universe propagation throttle -/

/-- C8: after accepting a DMX-data packet for universe `U`, the manager
pushes the full current snapshot map if and only if `U` has never
triggered a push, or at least `0.9 × (1 / refresh rate)` has elapsed since
`U`'s last push (25 ms render period at the fixed 40 Hz rate, so a
22.5 ms threshold); otherwise nothing is pushed and `U`'s last-push
timestamp is unchanged. -/
theorem onPacketReceived_throttle (st : SacnState) (packet : DataPacket)
    (now : Int) (haccept : packet.dmxStartCode = 0) :
    ((onPacketReceived st packet now).2 ≠ none ↔
      (alookup st.lastQueueUpdateTs packet.universe_id = none ∨
        ∃ ts, alookup st.lastQueueUpdateTs packet.universe_id = some ts ∧
          (throttleThresholdUs : Int) ≤ now - ts)) ∧
    (∀ payload, (onPacketReceived st packet now).2 = some payload →
      payload = getAllUniverseData (alistSet st.db packet.universe_id (packet, now))) ∧
    ((onPacketReceived st packet now).2 = none →
      (onPacketReceived st packet now).1.lastQueueUpdateTs = st.lastQueueUpdateTs) ∧
    queueRefreshDeltaUs = 25000 ∧ throttleThresholdUs = 22500 := by
  refine ⟨?_, ?_, ?_, by decide, by decide⟩
  · unfold onPacketReceived
    simp only [haccept]
    cases h : alookup st.lastQueueUpdateTs packet.universe_id with
    | none => simp [h]
    | some ts =>
      simp only [h]
      by_cases hle : (throttleThresholdUs : Int) ≤ now - ts
      · simp [hle]
      · simp [hle]
  · intro payload
    unfold onPacketReceived
    simp only [haccept]
    cases h : alookup st.lastQueueUpdateTs packet.universe_id with
    | none => simp; exact fun h => h.symm
    | some ts =>
      by_cases hle : (throttleThresholdUs : Int) ≤ now - ts
      · simp [hle]; exact fun h => h.symm
      · simp [hle]
  · unfold onPacketReceived
    simp only [haccept]
    cases h : alookup st.lastQueueUpdateTs packet.universe_id with
    | none => simp
    | some ts =>
      by_cases hle : (throttleThresholdUs : Int) ≤ now - ts
      · simp [hle]
      · simp [hle]

/-- Witness for C8: a first-ever packet for universe 1 pushes; a packet
22499 µs after the last push is throttled with the timestamp unchanged;
one 22500 µs after is pushed. -/
theorem onPacketReceived_throttle_witness :
    ((onPacketReceived ⟨[], []⟩ ⟨0, 1, 100, "s", []⟩ 0).2 ≠ none) ∧
    ((onPacketReceived ⟨[], [(1, 0)]⟩ ⟨0, 1, 100, "s", []⟩ 22499).2 = none) ∧
    ((onPacketReceived ⟨[], [(1, 0)]⟩ ⟨0, 1, 100, "s", []⟩ 22499).1.lastQueueUpdateTs
      = [(1, 0)]) ∧
    ((onPacketReceived ⟨[], [(1, 0)]⟩ ⟨0, 1, 100, "s", []⟩ 22500).2 ≠ none) := by
  have h1 := (onPacketReceived_throttle ⟨[], []⟩ ⟨0, 1, 100, "s", []⟩ 0 rfl).1.mpr
    (Or.inl rfl)
  have hthr : throttleThresholdUs = 22500 :=
    (onPacketReceived_throttle ⟨[], []⟩ ⟨0, 1, 100, "s", []⟩ 0 rfl).2.2.2.2
  have h2 : (onPacketReceived ⟨[], [(1, 0)]⟩ ⟨0, 1, 100, "s", []⟩ 22499).2 = none := by
    by_contra hne
    rcases ((onPacketReceived_throttle ⟨[], [(1, 0)]⟩ ⟨0, 1, 100, "s", []⟩ 22499
      rfl).1.mp hne) with h | ⟨ts, hts, hle⟩
    · simp [alookup] at h
    · simp [alookup] at hts
      subst hts
      rw [hthr] at hle
      omega
  have h3 := (onPacketReceived_throttle ⟨[], [(1, 0)]⟩ ⟨0, 1, 100, "s", []⟩ 22499
    rfl).2.2.1 h2
  have h4 := (onPacketReceived_throttle ⟨[], [(1, 0)]⟩ ⟨0, 1, 100, "s", []⟩ 22500
    rfl).1.mpr (Or.inr ⟨0, rfl, by rw [hthr]; omega⟩)
  exact ⟨h1, h2, h3, h4⟩

/-! ## Claim C9: shutdown blackout -/

/-- C9: on a termination signal the worker closes the channel first, then
writes an all-zero frame to every output line in its buffer map and
transmits it, then exits — so the last transmitted state of every
configured output is a blackout frame; the same blackout also runs when
logger initialization fails at startup, before any frame is rendered. -/
theorem workerShutdownBlackout (bufs : Buffers) :
    (∀ g b, (g, b) ∈ bufs →
      WAction.transmit g (List.replicate b.pixels.length [0, 0, 0]) ∈ sigtermTrace bufs ∧
      WAction.transmit g (List.replicate b.pixels.length [0, 0, 0]) ∈ loggerInitFailTrace bufs) ∧
    (∀ g f, WAction.transmit g f ∈ sigtermTrace bufs → ∀ px ∈ f, px = [0, 0, 0]) ∧
    (∀ g f, WAction.transmit g f ∈ loggerInitFailTrace bufs → ∀ px ∈ f, px = [0, 0, 0]) ∧
    (sigtermTrace bufs).head? = some .closeQueue ∧
    (sigtermTrace bufs).getLast? = some .exitWorker ∧
    (loggerInitFailTrace bufs).getLast? = some .exitWorker := by
  have hmem : ∀ g (b : PixelBuf), (g, b) ∈ bufs →
      WAction.transmit g (List.replicate b.pixels.length [0, 0, 0]) ∈ blackoutTrace bufs := by
    intro g b hb
    simp only [blackoutTrace, List.mem_flatten, List.mem_map]
    exact ⟨[WAction.fillZero g, WAction.transmit g (List.replicate b.pixels.length [0, 0, 0])],
      ⟨(g, b), hb, rfl⟩, by simp⟩
  have hzero : ∀ g f, WAction.transmit g f ∈ blackoutTrace bufs → ∀ px ∈ f, px = [0, 0, 0] := by
    intro g f hf px hpx
    simp only [blackoutTrace, List.mem_flatten, List.mem_map] at hf
    obtain ⟨l, ⟨e, _, rfl⟩, hl⟩ := hf
    simp [PixelBuf.fill] at hl
    obtain ⟨-, -, rfl⟩ := hl
    exact List.eq_of_mem_replicate hpx
  refine ⟨?_, ?_, ?_, rfl, ?_, ?_⟩
  · intro g b hb
    exact ⟨List.mem_cons_of_mem _ (List.mem_append_left _ (hmem g b hb)),
      List.mem_append_left _ (hmem g b hb)⟩
  · intro g f hf
    rcases List.mem_cons.mp hf with h | h
    · simp at h
    rcases List.mem_append.mp h with h' | h'
    · exact hzero g f h'
    · simp at h'
  · intro g f hf
    rcases List.mem_append.mp hf with h | h
    · exact hzero g f h
    · simp at h
  · show (WAction.closeQueue :: blackoutTrace bufs ++ [WAction.exitWorker]).getLast? = _
    rw [show WAction.closeQueue :: blackoutTrace bufs ++ [WAction.exitWorker]
        = (WAction.closeQueue :: blackoutTrace bufs) ++ [WAction.exitWorker] from rfl,
      List.getLast?_concat]
  · exact List.getLast?_concat _

/-- Witness for C9 at a concrete two-output buffer map. -/
theorem workerShutdownBlackout_witness :
    WAction.transmit 5 (List.replicate 2 [0, 0, 0]) ∈
      sigtermTrace [(5, ⟨"RGB", [[9, 9, 9], [1, 2, 3]]⟩), (6, ⟨"GRB", [[4, 4, 4]]⟩)] ∧
    (sigtermTrace [(5, ⟨"RGB", [[9, 9, 9], [1, 2, 3]]⟩), (6, ⟨"GRB", [[4, 4, 4]]⟩)]).head?
      = some .closeQueue := by
  refine ⟨?_, (workerShutdownBlackout _).2.2.2.1⟩
  have h := (workerShutdownBlackout
    [(5, ⟨"RGB", [[9, 9, 9], [1, 2, 3]]⟩), (6, ⟨"GRB", [[4, 4, 4]]⟩)]).1
    5 ⟨"RGB", [[9, 9, 9], [1, 2, 3]]⟩ (by simp)
  simpa using h.1

end Piledbox
